import Mathlib

set_option linter.unusedVariables false

/-
Verification of the nested-list indent/outdent transforms of
packages/lexical-react/src/useLexicalNestedList.js.

The document tree is embedded as an arena: a partial map from node keys
to node records, each record carrying the node's kind, its parent key and
its ordered list of child keys.  This mirrors the host editor's node map,
in which every node stores a parent pointer and an ordered child-key
sequence.  The node API itself (append, insertBefore, insertAfter,
remove, replace, sibling getters, node construction) is code of the
repository that is not part of the analysed source file, so those
operations are modelled from the specification's capability list
(spec section 6) and data-model description (spec section 3).
The transforms, predicates, selection resolver and command adapter are
translated directly from the source file.
-/

/-- Node kinds of the document tree: List containers (with a tag),
ListItems, and other (content) nodes. -/
inductive NodeKind where
  | list (tag : String)
  | item
  | content
deriving DecidableEq, Repr

/-- A node record in the arena: kind, optional parent key,
ordered child keys. -/
structure NodeRec where
  kind : NodeKind
  parent : Option Nat
  children : List Nat
deriving DecidableEq, Repr

/-- The document: a partial map from keys to node records plus the next
fresh key used by node construction. -/
structure Doc where
  nodes : Nat → Option NodeRec
  nextKey : Nat

/-- Point update of the node map. -/
def setN (m : Nat → Option NodeRec) (k : Nat) (v : NodeRec) : Nat → Option NodeRec :=
  fun x => if x = k then some v else m x

/-- Update the record of an existing node; no-op when the key is absent. -/
def updNode (d : Doc) (k : Nat) (f : NodeRec → NodeRec) : Doc :=
  match d.nodes k with
  | some r => { d with nodes := setN d.nodes k (f r) }
  | none => d

/-- Keys of a concrete document given as an association list. -/
def lookupEntry (k : Nat) : List (Nat × NodeRec) → Option NodeRec
  | [] => none
  | e :: es => if e.1 = k then some e.2 else lookupEntry k es

/-- Build a concrete document from an association list of records. -/
def docOfEntries (entries : List (Nat × NodeRec)) (nk : Nat) : Doc :=
  ⟨fun k => lookupEntry k entries, nk⟩

/-- Modelled from the spec: get-parent capability (spec section 6). -/
def getParent (d : Doc) (k : Nat) : Option Nat :=
  (d.nodes k).bind (fun r => r.parent)

/-- Modelled from the spec: get-children capability (spec section 6). -/
def getChildren (d : Doc) (k : Nat) : List Nat :=
  match d.nodes k with
  | some r => r.children
  | none => []

/-- Modelled from the spec: get-first-child capability (spec section 6). -/
def getFirstChild (d : Doc) (k : Nat) : Option Nat :=
  (getChildren d k).head?

/-- Modelled from the spec: get-last-child capability (spec section 6). -/
def getLastChild (d : Doc) (k : Nat) : Option Nat :=
  (getChildren d k).getLast?

/-- Modelled from the spec: the tag attribute of a List node
(spec section 3); nodes of other kinds yield a default tag. -/
def getTag (d : Doc) (k : Nat) : String :=
  match d.nodes k with
  | some { kind := .list t, .. } => t
  | _ => ""

/-- Mirrors the host predicate behind the source's list check:
true iff the (possibly null) node is a List.  Returns false for
null/undefined input (spec section 4.1). -/
def isListNode (d : Doc) (k : Option Nat) : Bool :=
  match k with
  | some key =>
    match d.nodes key with
    | some { kind := .list _, .. } => true
    | _ => false
  | none => false

/-- Mirrors the host predicate behind the source's list-item check:
true iff the (possibly null) node is a ListItem (spec section 4.1). -/
def isListItemNode (d : Doc) (k : Option Nat) : Bool :=
  match k with
  | some key =>
    match d.nodes key with
    | some { kind := .item, .. } => true
    | _ => false
  | none => false

/-- Prefix of a child list strictly before the first occurrence of a key. -/
def takeUntil (t : Nat) : List Nat → List Nat
  | [] => []
  | x :: xs => if x = t then [] else x :: takeUntil t xs

/-- Suffix of a child list from the first occurrence of a key (inclusive). -/
def dropUntil (t : Nat) : List Nat → List Nat
  | [] => []
  | x :: xs => if x = t then x :: xs else dropUntil t xs

/-- Remove the first occurrence of a key from a child list. -/
def eraseKey (t : Nat) : List Nat → List Nat
  | [] => []
  | x :: xs => if x = t then xs else x :: eraseKey t xs

/-- Modelled from the spec: get-previous-sibling capability
(spec section 6), read off the parent's ordered child sequence. -/
def getPreviousSibling (d : Doc) (k : Nat) : Option Nat :=
  match getParent d k with
  | none => none
  | some p => (takeUntil k (getChildren d p)).getLast?

/-- Modelled from the spec: get-next-sibling capability (spec section 6). -/
def getNextSibling (d : Doc) (k : Nat) : Option Nat :=
  match getParent d k with
  | none => none
  | some p => ((dropUntil k (getChildren d p)).drop 1).head?

/-- Modelled from the spec: get-preceding-siblings capability
(spec section 6), in document order. -/
def getPreviousSiblings (d : Doc) (k : Nat) : List Nat :=
  match getParent d k with
  | none => []
  | some p => takeUntil k (getChildren d p)

/-- Modelled from the spec: get-following-siblings capability
(spec section 6), in document order. -/
def getNextSiblings (d : Doc) (k : Nat) : List Nat :=
  match getParent d k with
  | none => []
  | some p => (dropUntil k (getChildren d p)).drop 1

/-- Modelled from the spec: is-empty capability (spec section 6). -/
def nodeIsEmpty (d : Doc) (k : Nat) : Bool :=
  (getChildren d k).isEmpty

/-- Modelled from the spec: relocation is "remove from owner A's sequence,
insert into owner B's sequence" (spec section 9); this is the removal half,
clearing the node's parent link. -/
def removeFromParent (d : Doc) (k : Nat) : Doc :=
  match getParent d k with
  | none => d
  | some p =>
    let d1 := updNode d p (fun pr => { pr with children := eraseKey k pr.children })
    updNode d1 k (fun kr => { kr with parent := none })

/-- Modelled from the spec: append-child capability (spec section 6);
the node is detached from its previous owner and appended to the new
owner's child sequence. -/
def appendChild (d : Doc) (p : Nat) (k : Nat) : Doc :=
  let d1 := removeFromParent d k
  let d2 := updNode d1 p (fun pr => { pr with children := pr.children ++ [k] })
  updNode d2 k (fun kr => { kr with parent := some p })

/-- Variadic append: append the given keys one after the other, in order. -/
def appendChildren (d : Doc) (p : Nat) (ks : List Nat) : Doc :=
  ks.foldl (fun acc k => appendChild acc p k) d

/-- Modelled from the spec: insert-before capability (spec section 6);
the inserted node is detached from its previous owner and spliced into
the reference node's parent immediately before the reference node. -/
def insertBefore (d : Doc) (ref : Nat) (k : Nat) : Doc :=
  let d1 := removeFromParent d k
  match getParent d1 ref with
  | none => d1
  | some p =>
    let d2 := updNode d1 p
      (fun pr => { pr with children := takeUntil ref pr.children ++ k :: dropUntil ref pr.children })
    updNode d2 k (fun kr => { kr with parent := some p })

/-- Modelled from the spec: insert-after capability (spec section 6). -/
def insertAfter (d : Doc) (ref : Nat) (k : Nat) : Doc :=
  let d1 := removeFromParent d k
  match getParent d1 ref with
  | none => d1
  | some p =>
    let d2 := updNode d1 p
      (fun pr =>
        let cs :=
          match dropUntil ref pr.children with
          | [] => pr.children ++ [k]
          | r :: rest => takeUntil ref pr.children ++ r :: k :: rest
        { pr with children := cs })
    updNode d2 k (fun kr => { kr with parent := some p })

/-- Modelled from the spec: remove capability (spec section 6).  The spec's
merge scenario states that removing the emptied inner List also removes the
now-meaningless wrapper ListItem around it ("C's wrapper is removed"), so
removal of a node cascades to an ancestor that becomes empty, stopping at
root nodes (nodes without a parent).  Fuel bounds the ancestor walk. -/
def removeNodeFuel : Nat → Doc → Nat → Doc
  | 0, d, _ => d
  | fuel + 1, d, k =>
    match getParent d k with
    | none => d
    | some p =>
      let d1 := removeFromParent d k
      if (getChildren d1 p).isEmpty && (getParent d1 p).isSome then
        removeNodeFuel fuel d1 p
      else d1

/-- Modelled from the spec: remove capability, with enough fuel for any
ancestor chain of the document. -/
def removeNode (d : Doc) (k : Nat) : Doc :=
  removeNodeFuel (d.nextKey + 1) d k

/-- Modelled from the spec: replace-with capability (spec section 6);
the replacement "takes over the former position" of the replaced node
(spec section 4.5), which is detached together with its subtree. -/
def replaceNode (d : Doc) (old : Nat) (new : Nat) : Doc :=
  let d1 := removeFromParent d new
  match getParent d1 old with
  | none => d1
  | some p =>
    let d2 := updNode d1 p
      (fun pr =>
        let cs := takeUntil old pr.children ++ new :: (dropUntil old pr.children).drop 1
        { pr with children := cs })
    let d3 := updNode d2 new (fun r => { r with parent := some p })
    updNode d3 old (fun r => { r with parent := none })

/-- Modelled from the spec: create-list-item node construction
(spec section 6); allocates a fresh key. -/
def createListItemNode (d : Doc) : Nat × Doc :=
  (d.nextKey,
   { nodes := setN d.nodes d.nextKey ⟨.item, none, []⟩, nextKey := d.nextKey + 1 })

/-- Modelled from the spec: create-list(tag) node construction
(spec section 6); allocates a fresh key. -/
def createListNode (tag : String) (d : Doc) : Nat × Doc :=
  (d.nextKey,
   { nodes := setN d.nodes d.nextKey ⟨.list tag, none, []⟩, nextKey := d.nextKey + 1 })

/-- Dirty marking is a signal to the rendering layer (spec section 3);
it does not change the document structure, so it is the identity here. -/
def markDirty (d : Doc) (k : Nat) : Doc := d

/-- The source's recurring `getChildren().forEach(child => child.markDirty())`. -/
def markChildrenDirty (d : Doc) (k : Nat) : Doc :=
  (getChildren d k).foldl markDirty d

/-- Source `isNestedListNode`: a ListItem whose first child is a List. -/
def isNestedListNode (d : Doc) (k : Option Nat) : Bool :=
  isListItemNode d k && isListNode d (k.bind (getFirstChild d))

/-- Fuel-bounded ancestor walk behind `findNearestListItemNode`. -/
def findNearestFuel : Nat → Doc → Nat → Option Nat
  | 0, _, _ => none
  | fuel + 1, d, k =>
    if isListItemNode d (some k) then some k
    else
      match getParent d k with
      | some p => findNearestFuel fuel d p
      | none => none

/-- Source `findNearestListItemNode`: walk the ancestor chain (inclusive)
upward to the first ListItem. -/
def findNearestListItemNode (d : Doc) (k : Nat) : Option Nat :=
  findNearestFuel (d.nextKey + 1) d k

/-- Insertion-ordered set add, mirroring the JS `Set` used by
`getUniqueListItemNodes`. -/
def addUniqueKey (acc : List Nat) (k : Nat) : List Nat :=
  if k ∈ acc then acc else acc ++ [k]

/-- Source `getUniqueListItemNodes`: keep the ListItems of the node list,
identity-deduplicated, preserving first-occurrence order. -/
def getUniqueListItemNodes (d : Doc) (nodeList : List Nat) : List Nat :=
  nodeList.foldl
    (fun acc node => if isListItemNode d (some node) then addUniqueKey acc node else acc) []

/-- Source `handleIndent` body for one target ListItem: the sibling-merge
case where both neighbors are nested-list wrappers. -/
def indentBothCase (d : Doc) (listItemNode : Nat)
    (previousSibling nextSibling : Option Nat) : Doc :=
  match previousSibling with
  | none => d
  | some prev =>
    match getFirstChild d prev with
    | none => d
    | some innerList =>
      if isListNode d (some innerList) then
        let d1 := appendChild d innerList listItemNode
        match nextSibling with
        | none => d1
        | some next =>
          match getFirstChild d1 next with
          | none => markChildrenDirty d1 innerList
          | some nextInnerList =>
            if isListNode d1 (some nextInnerList) then
              let children := getChildren d1 nextInnerList
              let d2 := appendChildren d1 innerList children
              let d3 := removeNode d2 nextInnerList
              markChildrenDirty d3 innerList
            else markChildrenDirty d1 innerList
      else d

/-- Source `handleIndent` body for one target: only the next sibling is a
nested-list wrapper; the target becomes the inner List's new first child. -/
def indentNextCase (d : Doc) (listItemNode : Nat) (nextSibling : Option Nat) : Doc :=
  match nextSibling with
  | none => d
  | some next =>
    match getFirstChild d next with
    | none => d
    | some innerList =>
      if isListNode d (some innerList) then
        let d1 :=
          match getFirstChild d innerList with
          | some firstChild => insertBefore d firstChild listItemNode
          | none => d
        markChildrenDirty d1 innerList
      else d

/-- Source `handleIndent` body for one target: only the previous sibling is
a nested-list wrapper; the target is appended to the inner List. -/
def indentPrevCase (d : Doc) (listItemNode : Nat) (previousSibling : Option Nat) : Doc :=
  match previousSibling with
  | none => d
  | some prev =>
    match getFirstChild d prev with
    | none => d
    | some innerList =>
      if isListNode d (some innerList) then
        let d1 := appendChild d innerList listItemNode
        markChildrenDirty d1 innerList
      else d

/-- Source `handleIndent` body for one target: neither neighbor is a
nested-list wrapper; synthesize a new ListItem/List pair at the target's
old position. -/
def indentCreateCase (d : Doc) (listItemNode : Nat)
    (parent previousSibling nextSibling : Option Nat) : Doc :=
  if isListNode d parent then
    match parent with
    | none => d
    | some par =>
      let (newListItem, dA) := createListItemNode d
      let (newList, dB) := createListNode (getTag dA par) dA
      let dC := appendChild dB newListItem newList
      let dD := appendChild dC newList listItemNode
      match previousSibling with
      | some prev => insertAfter dD prev newListItem
      | none =>
        match nextSibling with
        | some next => insertBefore dD next newListItem
        | none => appendChild dD par newListItem
  else d

/-- Source `handleIndent`, per-target body: decide where to move one
target ListItem. -/
def indentOne (d : Doc) (listItemNode : Nat) : Doc :=
  if isNestedListNode d (some listItemNode) then d
  else
    let parent := getParent d listItemNode
    let nextSibling := getNextSibling d listItemNode
    let previousSibling := getPreviousSibling d listItemNode
    let d5 :=
      if isNestedListNode d nextSibling && isNestedListNode d previousSibling then
        indentBothCase d listItemNode previousSibling nextSibling
      else if isNestedListNode d nextSibling then
        indentNextCase d listItemNode nextSibling
      else if isNestedListNode d previousSibling then
        indentPrevCase d listItemNode previousSibling
      else
        indentCreateCase d listItemNode parent previousSibling nextSibling
    if isListNode d5 parent then
      match parent with
      | some p => markChildrenDirty d5 p
      | none => d5
    else d5

/-- Source `handleIndent`: process each target in order. -/
def handleIndent (d : Doc) (listItemNodes : List Nat) : Doc :=
  listItemNodes.foldl indentOne d

/-- Source `handleOutdent` body for one target: the target is the first
child of its parent List. -/
def outdentFirstCase (d : Doc) (listItemNode pl gp : Nat) : Doc :=
  let d1 := insertBefore d gp listItemNode
  if nodeIsEmpty d1 pl then removeNode d1 gp else d1

/-- Source `handleOutdent` body for one target: the target is the last
child of its parent List. -/
def outdentLastCase (d : Doc) (listItemNode pl gp : Nat) : Doc :=
  let d1 := insertAfter d gp listItemNode
  if nodeIsEmpty d1 pl then removeNode d1 gp else d1

/-- Source `handleOutdent` body for one target: the target is an interior
child, so the siblings are split into two new nested lists placed around
the outdented target. -/
def outdentSplitCase (d : Doc) (listItemNode gp : Nat) (tag : String) : Doc :=
  let (previousSiblingsListItem, dA) := createListItemNode d
  let (previousSiblingsList, dB) := createListNode tag dA
  let dC := appendChild dB previousSiblingsListItem previousSiblingsList
  let dD := appendChildren dC previousSiblingsList (getPreviousSiblings dC listItemNode)
  let (nextSiblingsListItem, dE) := createListItemNode dD
  let (nextSiblingsList, dF) := createListNode tag dE
  let dG := appendChild dF nextSiblingsListItem nextSiblingsList
  let dH := appendChildren dG nextSiblingsList (getNextSiblings dG listItemNode)
  let dI := insertBefore dH gp previousSiblingsListItem
  let dJ := insertAfter dI gp nextSiblingsListItem
  replaceNode dJ gp listItemNode

/-- Source `handleOutdent`, per-target body. -/
def outdentOne (d : Doc) (listItemNode : Nat) : Doc :=
  if isNestedListNode d (some listItemNode) then d
  else
    let parentList := getParent d listItemNode
    let grandparentListItem := parentList.bind (getParent d)
    let greatGrandparentList := grandparentListItem.bind (getParent d)
    if isListNode d greatGrandparentList && isListItemNode d grandparentListItem &&
        isListNode d parentList then
      match parentList, grandparentListItem, greatGrandparentList with
      | some pl, some gp, some ggp =>
        let firstChild := getFirstChild d pl
        let lastChild := getLastChild d pl
        let d4 :=
          if firstChild = some listItemNode then
            outdentFirstCase d listItemNode pl gp
          else if lastChild = some listItemNode then
            outdentLastCase d listItemNode pl gp
          else
            outdentSplitCase d listItemNode gp (getTag d pl)
        markChildrenDirty (markChildrenDirty d4 pl) ggp
      | _, _, _ => d
    else d

/-- Source `handleOutdent`: process each target in order. -/
def handleOutdent (d : Doc) (listItemNodes : List Nat) : Doc :=
  listItemNodes.foldl outdentOne d

/-- Selection state consumed by the resolver: the selected node set and
the anchor node (spec section 6). -/
structure Selection where
  nodes : List Nat
  anchorNode : Nat

/-- Direction argument of `maybeIndentOrOutdent`. -/
inductive Direction where
  | indent
  | outdent
deriving DecidableEq

/-- Selection Resolver, the target-computing part of the source's
`maybeIndentOrOutdent`: fall back to the anchor node for an empty node set,
ancestor-walk a single candidate, filter-and-dedup multiple candidates. -/
def resolveTargets (d : Doc) (selection : Selection) : List Nat :=
  let selectedNodes := selection.nodes
  let selectedNodes :=
    if selectedNodes.length = 0 then [selection.anchorNode] else selectedNodes
  if selectedNodes.length = 1 then
    match selectedNodes.head? with
    | some only =>
      match findNearestListItemNode d only with
      | some nearest => [nearest]
      | none => []
    | none => []
  else
    getUniqueListItemNodes d selectedNodes

/-- Resolver output over an optional selection: empty when the selection
is null. -/
def selectionTargets (d : Doc) (selection : Option Selection) : List Nat :=
  match selection with
  | none => []
  | some s => resolveTargets d s

/-- Source `maybeIndentOrOutdent`: resolve targets and run the matching
transform, reporting whether the command was handled. -/
def maybeIndentOrOutdent (d : Doc) (selection : Option Selection)
    (direction : Direction) : Doc × Bool :=
  match selection with
  | none => (d, false)
  | some sel =>
    let listItemNodes := resolveTargets d sel
    if listItemNodes.length > 0 then
      match direction with
      | .indent => (handleIndent d listItemNodes, true)
      | .outdent => (handleOutdent d listItemNodes, true)
    else (d, false)

/-- The command listener registered by `useLexicalNestedList`: route the
two handled command kinds to `maybeIndentOrOutdent`, report anything else
as not handled. -/
def commandListener (d : Doc) (selection : Option Selection) (type : String) : Doc × Bool :=
  if type = "indentContent" then
    let r := maybeIndentOrOutdent d selection .indent
    if r.2 then (r.1, true) else (r.1, false)
  else if type = "outdentContent" then
    let r := maybeIndentOrOutdent d selection .outdent
    if r.2 then (r.1, true) else (r.1, false)
  else (d, false)

/-- Concrete document for the merge scenario: outer List 0 = [A=1, B=2, C=3],
A wraps inner List 4 = [a1=5], C wraps inner List 7 = [c1=8], B holds
content 6. -/
def mergeDoc : Doc :=
  docOfEntries
    [(0, ⟨.list "ul", none, [1, 2, 3]⟩),
     (1, ⟨.item, some 0, [4]⟩),
     (4, ⟨.list "ul", some 1, [5]⟩),
     (5, ⟨.item, some 4, []⟩),
     (2, ⟨.item, some 0, [6]⟩),
     (6, ⟨.content, some 2, []⟩),
     (3, ⟨.item, some 0, [7]⟩),
     (7, ⟨.list "ul", some 3, [8]⟩),
     (8, ⟨.item, some 7, []⟩)]
    9

/-- C1: in the merge scenario (outer List [A, B, C] with A and C nested-list
wrappers around inner lists [a1] and [c1]), indenting B produces the single
inner list [a1, B, c1] under A, removes C's wrapper from the outer List, and
leaves the outer List containing only A. -/
theorem c1_merge_scenario :
    (handleIndent mergeDoc [2]).nodes 0 = some ⟨.list "ul", none, [1]⟩ ∧
    (handleIndent mergeDoc [2]).nodes 4 = some ⟨.list "ul", some 1, [5, 2, 8]⟩ ∧
    (handleIndent mergeDoc [2]).nodes 2 = some ⟨.item, some 4, [6]⟩ ∧
    (handleIndent mergeDoc [2]).nodes 8 = some ⟨.item, some 4, []⟩ ∧
    (handleIndent mergeDoc [2]).nodes 3 = some ⟨.item, none, []⟩ := by decide

/-- Concrete document for the dedup counterexample: ListItem 1 under List 0
holds two content nodes 2 and 3; the selection references the ListItem via
those two descendants. -/
def dedupDoc : Doc :=
  docOfEntries
    [(0, ⟨.list "ul", none, [1]⟩),
     (1, ⟨.item, some 0, [2, 3]⟩),
     (2, ⟨.content, some 1, []⟩),
     (3, ⟨.content, some 1, []⟩)]
    4

/-- C2 counterexample: a selection whose node set references ListItem 1
twice via the two descendant content nodes 2 and 3 resolves to the empty
target list, not to [1]: with multiple candidates the resolver filters by
the ListItem predicate instead of ancestor-walking, so the ListItem is
returned zero times rather than exactly once. -/
theorem c2_dedup_descendants_cx :
    resolveTargets dedupDoc ⟨[2, 3], 2⟩ = [] ∧
    isListItemNode dedupDoc (some 1) = true ∧
    findNearestListItemNode dedupDoc 2 = some 1 ∧
    findNearestListItemNode dedupDoc 3 = some 1 ∧
    (resolveTargets dedupDoc ⟨[2, 3], 2⟩).count 1 = 0 := by decide

/-- Concrete document for the round-trip counterexample: outer List 0 holds
a nested-list wrapper A=1 around an empty inner List 3, followed by the
target item 2 (content 4). -/
def rtDoc : Doc :=
  docOfEntries
    [(0, ⟨.list "ul", none, [1, 2]⟩),
     (1, ⟨.item, some 0, [3]⟩),
     (3, ⟨.list "ul", some 1, []⟩),
     (2, ⟨.item, some 0, [4]⟩),
     (4, ⟨.content, some 2, []⟩)]
    5

/-- C4 counterexample: indent followed by outdent of item 2, whose previous
sibling is a nested-list wrapper with an empty inner List, does not restore
the original sibling set: the wrapper A=1 is removed from the outer List by
the round trip, so the outer List goes from [1, 2] to [2]. -/
theorem c4_round_trip_cx :
    rtDoc.nodes 0 = some ⟨.list "ul", none, [1, 2]⟩ ∧
    (handleOutdent (handleIndent rtDoc [2]) [2]).nodes 0 = some ⟨.list "ul", none, [2]⟩ ∧
    (handleOutdent (handleIndent rtDoc [2]) [2]).nodes 1 = some ⟨.item, none, [3]⟩ := by decide

/-- Concrete document for the error-handling counterexample: parent 0 is a
ListItem (not a List), holding a nested-list wrapper 1 (inner List 3) and
the target item 2. -/
def badParentDoc : Doc :=
  docOfEntries
    [(0, ⟨.item, none, [1, 2]⟩),
     (1, ⟨.item, some 0, [3]⟩),
     (3, ⟨.list "ul", some 1, []⟩),
     (2, ⟨.item, some 0, [5]⟩),
     (5, ⟨.content, some 2, []⟩)]
    6

/-- C6 counterexample: the target item 2 has a structurally unexpected
surrounding tree (its parent 0 is a ListItem, not a List), yet indent does
not leave the tree unchanged: the nested-wrapper previous sibling makes the
merge branch run, moving the target into the wrapper's inner List 3. -/
theorem c6_bad_parent_cx :
    isListNode badParentDoc (getParent badParentDoc 2) = false ∧
    badParentDoc.nodes 3 = some ⟨.list "ul", some 1, []⟩ ∧
    (handleIndent badParentDoc [2]).nodes 3 = some ⟨.list "ul", some 1, [2]⟩ ∧
    (handleIndent badParentDoc [2]).nodes 0 = some ⟨.item, none, [1]⟩ := by decide

/-- Concrete document for the indent-next-sibling counterexample: outer
List 0 holds the target item 1 (content 4) and a nested-list wrapper 2
whose inner List 3 is empty. -/
def emptyInnerDoc : Doc :=
  docOfEntries
    [(0, ⟨.list "ul", none, [1, 2]⟩),
     (1, ⟨.item, some 0, [4]⟩),
     (4, ⟨.content, some 1, []⟩),
     (2, ⟨.item, some 0, [3]⟩),
     (3, ⟨.list "ul", some 2, []⟩)]
    5

/-- C8 counterexample: the target item 1 has a nested-list-wrapper next
sibling 2 whose inner List 3 is empty and a non-wrapper previous sibling,
yet the target is not inserted into the inner List: the inner List stays
empty and the target stays in the outer List. -/
theorem c8_empty_inner_cx :
    isNestedListNode emptyInnerDoc (getNextSibling emptyInnerDoc 1) = true ∧
    isNestedListNode emptyInnerDoc (getPreviousSibling emptyInnerDoc 1) = false ∧
    (handleIndent emptyInnerDoc [1]).nodes 3 = some ⟨.list "ul", some 2, []⟩ ∧
    (handleIndent emptyInnerDoc [1]).nodes 0 = some ⟨.list "ul", none, [1, 2]⟩ := by decide

theorem takeUntil_of_notMem {t : Nat} {l : List Nat} (h : t ∉ l) :
    takeUntil t l = l := by
  induction l with
  | nil => rfl
  | cons x xs ih =>
    simp only [List.mem_cons, not_or] at h
    simp [takeUntil, Ne.symm h.1, ih h.2]

theorem dropUntil_of_notMem {t : Nat} {l : List Nat} (h : t ∉ l) :
    dropUntil t l = [] := by
  induction l with
  | nil => rfl
  | cons x xs ih =>
    simp only [List.mem_cons, not_or] at h
    simp [dropUntil, Ne.symm h.1, ih h.2]

theorem takeUntil_append {t : Nat} {a : List Nat} (b : List Nat) (h : t ∉ a) :
    takeUntil t (a ++ t :: b) = a := by
  induction a with
  | nil => simp [takeUntil]
  | cons x xs ih =>
    simp only [List.mem_cons, not_or] at h
    simp [takeUntil, Ne.symm h.1, ih h.2]

theorem dropUntil_append {t : Nat} {a : List Nat} (b : List Nat) (h : t ∉ a) :
    dropUntil t (a ++ t :: b) = t :: b := by
  induction a with
  | nil => simp [dropUntil]
  | cons x xs ih =>
    simp only [List.mem_cons, not_or] at h
    simp [dropUntil, Ne.symm h.1, ih h.2]

theorem eraseKey_append {t : Nat} {a : List Nat} (b : List Nat) (h : t ∉ a) :
    eraseKey t (a ++ t :: b) = a ++ b := by
  induction a with
  | nil => simp [eraseKey]
  | cons x xs ih =>
    simp only [List.mem_cons, not_or] at h
    simp [eraseKey, Ne.symm h.1, ih h.2]

theorem setN_self (m : Nat → Option NodeRec) (k : Nat) (v : NodeRec) :
    setN m k v k = some v := by simp [setN]

theorem setN_ne (m : Nat → Option NodeRec) (k : Nat) (v : NodeRec) {x : Nat}
    (h : x ≠ k) : setN m k v x = m x := by simp [setN, h]

theorem markDirty_eq (d : Doc) (k : Nat) : markDirty d k = d := rfl

theorem foldl_markDirty (d : Doc) (l : List Nat) : l.foldl markDirty d = d := by
  induction l with
  | nil => rfl
  | cons x xs ih => simp [markDirty, ih]

theorem markChildrenDirty_eq (d : Doc) (k : Nat) : markChildrenDirty d k = d :=
  foldl_markDirty d (getChildren d k)

theorem getParent_eq {d : Doc} {k : Nat} {r : NodeRec} (h : d.nodes k = some r) :
    getParent d k = r.parent := by simp [getParent, h]

theorem getChildren_eq {d : Doc} {k : Nat} {r : NodeRec} (h : d.nodes k = some r) :
    getChildren d k = r.children := by simp [getChildren, h]

theorem updNode_nodes_self {d : Doc} {k : Nat} {r : NodeRec} (f : NodeRec → NodeRec)
    (h : d.nodes k = some r) : (updNode d k f).nodes k = some (f r) := by
  simp [updNode, h, setN]

theorem updNode_nodes_ne {d : Doc} {k x : Nat} (f : NodeRec → NodeRec)
    (h : x ≠ k) : (updNode d k f).nodes x = d.nodes x := by
  unfold updNode
  cases hd : d.nodes k
  · rfl
  · simp [setN, h]

theorem updNode_nextKey (d : Doc) (k : Nat) (f : NodeRec → NodeRec) :
    (updNode d k f).nextKey = d.nextKey := by
  unfold updNode
  cases hd : d.nodes k <;> rfl

theorem removeFromParent_spec {d : Doc} {k p : Nat} {kr pr : NodeRec}
    (hk : d.nodes k = some kr) (hkp : kr.parent = some p)
    (hp : d.nodes p = some pr) (hne : k ≠ p) :
    (removeFromParent d k).nodes p = some { pr with children := eraseKey k pr.children } ∧
    (removeFromParent d k).nodes k = some { kr with parent := none } ∧
    (∀ x, x ≠ k → x ≠ p → (removeFromParent d k).nodes x = d.nodes x) ∧
    (removeFromParent d k).nextKey = d.nextKey := by
  have h1 : getParent d k = some p := by rw [getParent_eq hk, hkp]
  have he : removeFromParent d k =
      updNode (updNode d p (fun pr => { pr with children := eraseKey k pr.children }))
        k (fun kr => { kr with parent := none }) := by
    simp only [removeFromParent, h1]
  have hk1 : (updNode d p (fun pr => { pr with children := eraseKey k pr.children })).nodes k
      = some kr := by rw [updNode_nodes_ne _ hne, hk]
  refine ⟨?_, ?_, ?_, ?_⟩
  · rw [he, updNode_nodes_ne _ (Ne.symm hne), updNode_nodes_self _ hp]
  · rw [he, updNode_nodes_self _ hk1]
  · intro x hx1 hx2
    rw [he, updNode_nodes_ne _ hx1, updNode_nodes_ne _ hx2]
  · rw [he, updNode_nextKey, updNode_nextKey]

theorem removeFromParent_noParent {d : Doc} {k : Nat}
    (h : getParent d k = none) : removeFromParent d k = d := by
  simp only [removeFromParent, h]

theorem appendChild_spec {d : Doc} {k p src : Nat} {kr pr sr : NodeRec}
    (hk : d.nodes k = some kr) (hkp : kr.parent = some src)
    (hsrc : d.nodes src = some sr) (hp : d.nodes p = some pr)
    (hks : k ≠ src) (hkpne : k ≠ p) (hsp : src ≠ p) :
    (appendChild d p k).nodes src = some { sr with children := eraseKey k sr.children } ∧
    (appendChild d p k).nodes p = some { pr with children := pr.children ++ [k] } ∧
    (appendChild d p k).nodes k = some { kr with parent := some p } ∧
    (∀ x, x ≠ k → x ≠ p → x ≠ src → (appendChild d p k).nodes x = d.nodes x) ∧
    (appendChild d p k).nextKey = d.nextKey := by
  obtain ⟨r1, r2, r3, r4⟩ := removeFromParent_spec hk hkp hsrc hks
  have he : appendChild d p k =
      updNode (updNode (removeFromParent d k) p
        (fun pr => { pr with children := pr.children ++ [k] }))
        k (fun kr => { kr with parent := some p }) := rfl
  have hep : (removeFromParent d k).nodes p = some pr := by
    rw [r3 p (Ne.symm hkpne) (Ne.symm hsp), hp]
  have hek : (updNode (removeFromParent d k) p
      (fun pr => { pr with children := pr.children ++ [k] })).nodes k
      = some { kr with parent := none } := by
    rw [updNode_nodes_ne _ hkpne, r2]
  refine ⟨?_, ?_, ?_, ?_, ?_⟩
  · rw [he, updNode_nodes_ne _ (Ne.symm hks), updNode_nodes_ne _ hsp, r1]
  · rw [he, updNode_nodes_ne _ (Ne.symm hkpne), updNode_nodes_self _ hep]
  · rw [he, updNode_nodes_self _ hek]
  · intro x hx1 hx2 hx3
    rw [he, updNode_nodes_ne _ hx1, updNode_nodes_ne _ hx2, r3 x hx1 hx3]
  · rw [he, updNode_nextKey, updNode_nextKey, r4]

theorem appendChild_noParent_spec {d : Doc} {k p : Nat} {kr pr : NodeRec}
    (hk : d.nodes k = some kr) (hkp : kr.parent = none)
    (hp : d.nodes p = some pr) (hkpne : k ≠ p) :
    (appendChild d p k).nodes p = some { pr with children := pr.children ++ [k] } ∧
    (appendChild d p k).nodes k = some { kr with parent := some p } ∧
    (∀ x, x ≠ k → x ≠ p → (appendChild d p k).nodes x = d.nodes x) ∧
    (appendChild d p k).nextKey = d.nextKey := by
  have h0 : getParent d k = none := by rw [getParent_eq hk, hkp]
  have he : appendChild d p k =
      updNode (updNode (removeFromParent d k) p
        (fun pr => { pr with children := pr.children ++ [k] }))
        k (fun kr => { kr with parent := some p }) := rfl
  have hrm : removeFromParent d k = d := removeFromParent_noParent h0
  have hek : (updNode d p
      (fun pr => { pr with children := pr.children ++ [k] })).nodes k = some kr := by
    rw [updNode_nodes_ne _ hkpne, hk]
  refine ⟨?_, ?_, ?_, ?_⟩
  · rw [he, hrm, updNode_nodes_ne _ (Ne.symm hkpne), updNode_nodes_self _ hp]
  · rw [he, hrm, updNode_nodes_self _ hek]
  · intro x hx1 hx2
    rw [he, hrm, updNode_nodes_ne _ hx1, updNode_nodes_ne _ hx2]
  · rw [he, hrm, updNode_nextKey, updNode_nextKey]

theorem insertBefore_spec {d : Doc} {k ref p src : Nat} {kr rr pr sr : NodeRec}
    {a b : List Nat}
    (hk : d.nodes k = some kr) (hkp : kr.parent = some src)
    (hsrc : d.nodes src = some sr)
    (href : d.nodes ref = some rr) (hrefp : rr.parent = some p)
    (hp : d.nodes p = some pr) (hpc : pr.children = a ++ ref :: b) (hra : ref ∉ a)
    (hks : k ≠ src) (hkpne : k ≠ p) (hsp : src ≠ p)
    (hrk : ref ≠ k) (hrs : ref ≠ src) :
    (insertBefore d ref k).nodes p = some { pr with children := a ++ k :: ref :: b } ∧
    (insertBefore d ref k).nodes k = some { kr with parent := some p } ∧
    (insertBefore d ref k).nodes src = some { sr with children := eraseKey k sr.children } ∧
    (∀ x, x ≠ k → x ≠ p → x ≠ src → (insertBefore d ref k).nodes x = d.nodes x) ∧
    (insertBefore d ref k).nextKey = d.nextKey := by
  obtain ⟨r1, r2, r3, r4⟩ := removeFromParent_spec hk hkp hsrc hks
  have hgr : getParent (removeFromParent d k) ref = some p := by
    rw [getParent, r3 ref hrk hrs, href]
    exact hrefp
  have he : insertBefore d ref k =
      updNode (updNode (removeFromParent d k) p
        (fun pr => { pr with children := takeUntil ref pr.children ++ k :: dropUntil ref pr.children }))
        k (fun kr => { kr with parent := some p }) := by
    simp only [insertBefore, hgr]
  have hep : (removeFromParent d k).nodes p = some pr := by
    rw [r3 p (Ne.symm hkpne) (Ne.symm hsp), hp]
  have hek : (updNode (removeFromParent d k) p
      (fun pr => { pr with children := takeUntil ref pr.children ++ k :: dropUntil ref pr.children })).nodes k
      = some { kr with parent := none } := by
    rw [updNode_nodes_ne _ hkpne, r2]
  refine ⟨?_, ?_, ?_, ?_, ?_⟩
  · rw [he, updNode_nodes_ne _ (Ne.symm hkpne), updNode_nodes_self _ hep]
    simp only [hpc, takeUntil_append b hra, dropUntil_append b hra]
  · rw [he, updNode_nodes_self _ hek]
  · rw [he, updNode_nodes_ne _ (Ne.symm hks), updNode_nodes_ne _ hsp, r1]
  · intro x hx1 hx2 hx3
    rw [he, updNode_nodes_ne _ hx1, updNode_nodes_ne _ hx2, r3 x hx1 hx3]
  · rw [he, updNode_nextKey, updNode_nextKey, r4]

theorem insertBefore_noParent_spec {d : Doc} {k ref p : Nat} {kr rr pr : NodeRec}
    {a b : List Nat}
    (hk : d.nodes k = some kr) (hkp : kr.parent = none)
    (href : d.nodes ref = some rr) (hrefp : rr.parent = some p)
    (hp : d.nodes p = some pr) (hpc : pr.children = a ++ ref :: b) (hra : ref ∉ a)
    (hkpne : k ≠ p) :
    (insertBefore d ref k).nodes p = some { pr with children := a ++ k :: ref :: b } ∧
    (insertBefore d ref k).nodes k = some { kr with parent := some p } ∧
    (∀ x, x ≠ k → x ≠ p → (insertBefore d ref k).nodes x = d.nodes x) ∧
    (insertBefore d ref k).nextKey = d.nextKey := by
  have h0 : getParent d k = none := by rw [getParent_eq hk, hkp]
  have hrm : removeFromParent d k = d := removeFromParent_noParent h0
  have hgr0 : getParent d ref = some p := by
    rw [getParent, href]
    exact hrefp
  have he : insertBefore d ref k =
      updNode (updNode d p
        (fun pr => { pr with children := takeUntil ref pr.children ++ k :: dropUntil ref pr.children }))
        k (fun kr => { kr with parent := some p }) := by
    simp only [insertBefore, hrm, hgr0]
  have hek : (updNode d p
      (fun pr => { pr with children := takeUntil ref pr.children ++ k :: dropUntil ref pr.children })).nodes k
      = some kr := by
    rw [updNode_nodes_ne _ hkpne, hk]
  refine ⟨?_, ?_, ?_, ?_⟩
  · rw [he, updNode_nodes_ne _ (Ne.symm hkpne), updNode_nodes_self _ hp]
    simp only [hpc, takeUntil_append b hra, dropUntil_append b hra]
  · rw [he, updNode_nodes_self _ hek]
  · intro x hx1 hx2
    rw [he, updNode_nodes_ne _ hx1, updNode_nodes_ne _ hx2]
  · rw [he, updNode_nextKey, updNode_nextKey]

theorem insertAfter_spec {d : Doc} {k ref p src : Nat} {kr rr pr sr : NodeRec}
    {a b : List Nat}
    (hk : d.nodes k = some kr) (hkp : kr.parent = some src)
    (hsrc : d.nodes src = some sr)
    (href : d.nodes ref = some rr) (hrefp : rr.parent = some p)
    (hp : d.nodes p = some pr) (hpc : pr.children = a ++ ref :: b) (hra : ref ∉ a)
    (hks : k ≠ src) (hkpne : k ≠ p) (hsp : src ≠ p)
    (hrk : ref ≠ k) (hrs : ref ≠ src) :
    (insertAfter d ref k).nodes p = some { pr with children := a ++ ref :: k :: b } ∧
    (insertAfter d ref k).nodes k = some { kr with parent := some p } ∧
    (insertAfter d ref k).nodes src = some { sr with children := eraseKey k sr.children } ∧
    (∀ x, x ≠ k → x ≠ p → x ≠ src → (insertAfter d ref k).nodes x = d.nodes x) ∧
    (insertAfter d ref k).nextKey = d.nextKey := by
  obtain ⟨r1, r2, r3, r4⟩ := removeFromParent_spec hk hkp hsrc hks
  have hgr : getParent (removeFromParent d k) ref = some p := by
    rw [getParent, r3 ref hrk hrs, href]
    exact hrefp
  have he : insertAfter d ref k =
      updNode (updNode (removeFromParent d k) p
        (fun pr =>
          let cs :=
            match dropUntil ref pr.children with
            | [] => pr.children ++ [k]
            | r :: rest => takeUntil ref pr.children ++ r :: k :: rest
          { pr with children := cs }))
        k (fun kr => { kr with parent := some p }) := by
    simp only [insertAfter, hgr]
  have hep : (removeFromParent d k).nodes p = some pr := by
    rw [r3 p (Ne.symm hkpne) (Ne.symm hsp), hp]
  have hek : (updNode (removeFromParent d k) p
      (fun pr =>
        let cs :=
          match dropUntil ref pr.children with
          | [] => pr.children ++ [k]
          | r :: rest => takeUntil ref pr.children ++ r :: k :: rest
        { pr with children := cs })).nodes k
      = some { kr with parent := none } := by
    rw [updNode_nodes_ne _ hkpne, r2]
  refine ⟨?_, ?_, ?_, ?_, ?_⟩
  · rw [he, updNode_nodes_ne _ (Ne.symm hkpne), updNode_nodes_self _ hep]
    simp only [hpc, takeUntil_append b hra, dropUntil_append b hra]
  · rw [he, updNode_nodes_self _ hek]
  · rw [he, updNode_nodes_ne _ (Ne.symm hks), updNode_nodes_ne _ hsp, r1]
  · intro x hx1 hx2 hx3
    rw [he, updNode_nodes_ne _ hx1, updNode_nodes_ne _ hx2, r3 x hx1 hx3]
  · rw [he, updNode_nextKey, updNode_nextKey, r4]

theorem insertAfter_noParent_spec {d : Doc} {k ref p : Nat} {kr rr pr : NodeRec}
    {a b : List Nat}
    (hk : d.nodes k = some kr) (hkp : kr.parent = none)
    (href : d.nodes ref = some rr) (hrefp : rr.parent = some p)
    (hp : d.nodes p = some pr) (hpc : pr.children = a ++ ref :: b) (hra : ref ∉ a)
    (hkpne : k ≠ p) :
    (insertAfter d ref k).nodes p = some { pr with children := a ++ ref :: k :: b } ∧
    (insertAfter d ref k).nodes k = some { kr with parent := some p } ∧
    (∀ x, x ≠ k → x ≠ p → (insertAfter d ref k).nodes x = d.nodes x) ∧
    (insertAfter d ref k).nextKey = d.nextKey := by
  have h0 : getParent d k = none := by rw [getParent_eq hk, hkp]
  have hrm : removeFromParent d k = d := removeFromParent_noParent h0
  have hgr0 : getParent d ref = some p := by
    rw [getParent, href]
    exact hrefp
  have he : insertAfter d ref k =
      updNode (updNode d p
        (fun pr =>
          let cs :=
            match dropUntil ref pr.children with
            | [] => pr.children ++ [k]
            | r :: rest => takeUntil ref pr.children ++ r :: k :: rest
          { pr with children := cs }))
        k (fun kr => { kr with parent := some p }) := by
    simp only [insertAfter, hrm, hgr0]
  have hek : (updNode d p
      (fun pr =>
        let cs :=
          match dropUntil ref pr.children with
          | [] => pr.children ++ [k]
          | r :: rest => takeUntil ref pr.children ++ r :: k :: rest
        { pr with children := cs })).nodes k
      = some kr := by
    rw [updNode_nodes_ne _ hkpne, hk]
  refine ⟨?_, ?_, ?_, ?_⟩
  · rw [he, updNode_nodes_ne _ (Ne.symm hkpne), updNode_nodes_self _ hp]
    simp only [hpc, takeUntil_append b hra, dropUntil_append b hra]
  · rw [he, updNode_nodes_self _ hek]
  · intro x hx1 hx2
    rw [he, updNode_nodes_ne _ hx1, updNode_nodes_ne _ hx2]
  · rw [he, updNode_nextKey, updNode_nextKey]

theorem replaceNode_spec {d : Doc} {old new p src : Nat} {nr orr pr sr : NodeRec}
    {a b : List Nat}
    (hnew : d.nodes new = some nr) (hnp : nr.parent = some src)
    (hsrc : d.nodes src = some sr)
    (hold : d.nodes old = some orr) (holdp : orr.parent = some p)
    (hp : d.nodes p = some pr) (hpc : pr.children = a ++ old :: b) (ha : old ∉ a)
    (hns : new ≠ src) (hnpne : new ≠ p) (hsp : src ≠ p)
    (hon : old ≠ new) (hos : old ≠ src) (hop : old ≠ p) :
    (replaceNode d old new).nodes p = some { pr with children := a ++ new :: b } ∧
    (replaceNode d old new).nodes new = some { nr with parent := some p } ∧
    (replaceNode d old new).nodes old = some { orr with parent := none } ∧
    (replaceNode d old new).nodes src = some { sr with children := eraseKey new sr.children } ∧
    (∀ x, x ≠ old → x ≠ new → x ≠ p → x ≠ src → (replaceNode d old new).nodes x = d.nodes x) ∧
    (replaceNode d old new).nextKey = d.nextKey := by
  obtain ⟨r1, r2, r3, r4⟩ := removeFromParent_spec hnew hnp hsrc hns
  have hgr : getParent (removeFromParent d new) old = some p := by
    rw [getParent, r3 old hon hos, hold]
    exact holdp
  have he : replaceNode d old new =
      updNode (updNode (updNode (removeFromParent d new) p
        (fun pr =>
          let cs := takeUntil old pr.children ++ new :: (dropUntil old pr.children).drop 1
          { pr with children := cs }))
        new (fun r => { r with parent := some p }))
        old (fun r => { r with parent := none }) := by
    simp only [replaceNode, hgr]
  have hep : (removeFromParent d new).nodes p = some pr := by
    rw [r3 p (Ne.symm hnpne) (Ne.symm hsp), hp]
  have hen : (updNode (removeFromParent d new) p
      (fun pr =>
        let cs := takeUntil old pr.children ++ new :: (dropUntil old pr.children).drop 1
        { pr with children := cs })).nodes new = some { nr with parent := none } := by
    rw [updNode_nodes_ne _ hnpne, r2]
  have heo : (updNode (updNode (removeFromParent d new) p
      (fun pr =>
        let cs := takeUntil old pr.children ++ new :: (dropUntil old pr.children).drop 1
        { pr with children := cs }))
      new (fun r => { r with parent := some p })).nodes old = some orr := by
    rw [updNode_nodes_ne _ hon, updNode_nodes_ne _ hop, r3 old hon hos, hold]
  refine ⟨?_, ?_, ?_, ?_, ?_, ?_⟩
  · rw [he, updNode_nodes_ne _ (Ne.symm hop), updNode_nodes_ne _ (Ne.symm hnpne),
      updNode_nodes_self _ hep]
    simp [hpc, takeUntil_append b ha, dropUntil_append b ha]
  · rw [he, updNode_nodes_ne _ (Ne.symm hon), updNode_nodes_self _ hen]
  · rw [he, updNode_nodes_self _ heo]
  · rw [he, updNode_nodes_ne _ (Ne.symm hos), updNode_nodes_ne _ (Ne.symm hns),
      updNode_nodes_ne _ hsp, r1]
  · intro x hx1 hx2 hx3 hx4
    rw [he, updNode_nodes_ne _ hx1, updNode_nodes_ne _ hx2, updNode_nodes_ne _ hx3,
      r3 x hx2 hx4]
  · rw [he, updNode_nextKey, updNode_nextKey, updNode_nextKey, r4]

theorem removeNode_stop_spec {d : Doc} {k p : Nat} {kr pr : NodeRec}
    (hk : d.nodes k = some kr) (hkp : kr.parent = some p)
    (hp : d.nodes p = some pr) (hne : k ≠ p)
    (hstop : (eraseKey k pr.children).isEmpty = false ∨ pr.parent = none) :
    removeNode d k = removeFromParent d k := by
  obtain ⟨r1, r2, r3, r4⟩ := removeFromParent_spec hk hkp hp hne
  have hgp : getParent d k = some p := by rw [getParent_eq hk, hkp]
  have hc1 : getChildren (removeFromParent d k) p = eraseKey k pr.children := by
    rw [getChildren_eq r1]
  have hc2 : getParent (removeFromParent d k) p = pr.parent := by
    rw [getParent_eq r1]
  have hcond : ((getChildren (removeFromParent d k) p).isEmpty &&
      (getParent (removeFromParent d k) p).isSome) = false := by
    rw [hc1, hc2]
    rcases hstop with h | h
    · simp [h]
    · simp [h]
  simp only [removeNode, removeNodeFuel, hgp, hcond, Bool.false_eq_true, if_false]

theorem removeNode_cascade_spec {d : Doc} {k p q : Nat} {kr pr qr : NodeRec}
    (hk : d.nodes k = some kr) (hkp : kr.parent = some p)
    (hp : d.nodes p = some pr) (hne : k ≠ p)
    (hempty : eraseKey k pr.children = [])
    (hpp : pr.parent = some q) (hq : d.nodes q = some qr)
    (hpq : p ≠ q) (hkq : k ≠ q)
    (hstop : (eraseKey p qr.children).isEmpty = false ∨ qr.parent = none)
    (hn : d.nextKey ≠ 0) :
    removeNode d k = removeFromParent (removeFromParent d k) p := by
  obtain ⟨r1, r2, r3, r4⟩ := removeFromParent_spec hk hkp hp hne
  have hgp : getParent d k = some p := by rw [getParent_eq hk, hkp]
  have hc1 : getChildren (removeFromParent d k) p = eraseKey k pr.children := by
    rw [getChildren_eq r1]
  have hc2 : getParent (removeFromParent d k) p = pr.parent := by
    rw [getParent_eq r1]
  have hcond : ((getChildren (removeFromParent d k) p).isEmpty &&
      (getParent (removeFromParent d k) p).isSome) = true := by
    rw [hc1, hc2, hempty, hpp]
    rfl
  have hq1 : (removeFromParent d k).nodes q = some qr := by
    rw [r3 q (Ne.symm hkq) (Ne.symm hpq), hq]
  have hpr1 : (removeFromParent d k).nodes p =
      some { pr with children := eraseKey k pr.children } := r1
  obtain ⟨s1, s2, s3, s4⟩ := removeFromParent_spec hpr1 (show
    ({ pr with children := eraseKey k pr.children } : NodeRec).parent = some q from hpp) hq1 hpq
  have hc3 : getChildren (removeFromParent (removeFromParent d k) p) q =
      eraseKey p qr.children := by rw [getChildren_eq s1]
  have hc4 : getParent (removeFromParent (removeFromParent d k) p) q = qr.parent := by
    rw [getParent_eq s1]
  have hgp2 : getParent (removeFromParent d k) p = some q := by rw [hc2, hpp]
  have hcond2 : ((getChildren (removeFromParent (removeFromParent d k) p) q).isEmpty &&
      (getParent (removeFromParent (removeFromParent d k) p) q).isSome) = false := by
    rw [hc3, hc4]
    rcases hstop with h | h
    · simp [h]
    · simp [h]
  obtain ⟨m, hm⟩ : ∃ m, d.nextKey = m + 1 := ⟨d.nextKey - 1, by omega⟩
  rw [removeNode, hm]
  show removeNodeFuel (m + 1 + 1) d k = _
  rw [removeNodeFuel, hgp]
  simp only [hcond, if_true]
  rw [removeNodeFuel, hgp2]
  simp only [hcond2, Bool.false_eq_true, if_false]

theorem appendChildren_spec {p src : Nat} {b : List Nat} {ks : List Nat} :
    ∀ {d : Doc} {sr pr : NodeRec} {a : List Nat},
    d.nodes src = some sr → sr.children = a ++ ks ++ b →
    d.nodes p = some pr →
    (∀ s ∈ ks, ∃ r, d.nodes s = some r ∧ r.parent = some src) →
    ks.Nodup → (∀ s ∈ ks, s ∉ a) → (∀ s ∈ ks, s ∉ b) →
    src ≠ p → src ∉ ks → p ∉ ks →
    (appendChildren d p ks).nodes src = some { sr with children := a ++ b } ∧
    (appendChildren d p ks).nodes p = some { pr with children := pr.children ++ ks } ∧
    (∀ s r, s ∈ ks → d.nodes s = some r →
      (appendChildren d p ks).nodes s = some { r with parent := some p }) ∧
    (∀ x, x ≠ src → x ≠ p → x ∉ ks → (appendChildren d p ks).nodes x = d.nodes x) ∧
    (appendChildren d p ks).nextKey = d.nextKey := by
  induction ks with
  | nil =>
    intro d sr pr a hsrc hsc hp hmem hnd hna hnb hsp hsks hpks
    have he : appendChildren d p [] = d := rfl
    have hs : ({ sr with children := a ++ b } : NodeRec) = sr := by
      obtain ⟨k0, p0, c0⟩ := sr
      simp only [List.append_nil] at hsc
      simp [hsc]
    have hpr : ({ pr with children := pr.children ++ ([] : List Nat) } : NodeRec) = pr := by
      obtain ⟨k0, p0, c0⟩ := pr
      simp
    refine ⟨?_, ?_, ?_, ?_, ?_⟩
    · rw [he, hs, hsrc]
    · rw [he, hpr, hp]
    · intro s r hs0 _
      exact absurd hs0 (List.not_mem_nil s)
    · intro x _ _ _
      rw [he]
    · rw [he]
  | cons s ks ih =>
    intro d sr pr a hsrc hsc hp hmem hnd hna hnb hsp hsks hpks
    obtain ⟨r, hr, hrp⟩ := hmem s (List.mem_cons_self s ks)
    have hsa : s ∉ a := hna s (List.mem_cons_self s ks)
    have hssrc : s ≠ src := fun h => hsks (h ▸ List.mem_cons_self s ks)
    have hspne : s ≠ p := fun h => hpks (h ▸ List.mem_cons_self s ks)
    have hsks2 : s ∉ ks := (List.nodup_cons.mp hnd).1
    obtain ⟨a1, a2, a3, a4, a5⟩ := appendChild_spec hr hrp hsrc hp hssrc hspne hsp
    have hlist : eraseKey s sr.children = a ++ ks ++ b := by
      rw [hsc, List.append_assoc]
      show eraseKey s (a ++ (s :: (ks ++ b))) = _
      rw [eraseKey_append (ks ++ b) hsa, List.append_assoc]
    have ha1 : (appendChild d p s).nodes src = some { sr with children := a ++ ks ++ b } := by
      rw [a1, hlist]
    have he : appendChildren d p (s :: ks) = appendChildren (appendChild d p s) p ks := rfl
    have hmem2 : ∀ t ∈ ks, ∃ r2, (appendChild d p s).nodes t = some r2 ∧
        r2.parent = some src := by
      intro t ht
      obtain ⟨r2, hr2, hr2p⟩ := hmem t (List.mem_cons_of_mem s ht)
      refine ⟨r2, ?_, hr2p⟩
      rw [a4 t (fun h => hsks2 (h ▸ ht)) (fun h => hpks (h ▸ List.mem_cons_of_mem s ht))
        (fun h => hsks (h ▸ List.mem_cons_of_mem s ht)), hr2]
    obtain ⟨i1, i2, i3, i4, i5⟩ := ih ha1 rfl a2 hmem2 (List.nodup_cons.mp hnd).2
      (fun t ht => hna t (List.mem_cons_of_mem s ht))
      (fun t ht => hnb t (List.mem_cons_of_mem s ht))
      hsp (fun h => hsks (List.mem_cons_of_mem s h))
      (fun h => hpks (List.mem_cons_of_mem s h))
    refine ⟨?_, ?_, ?_, ?_, ?_⟩
    · rw [he]
      exact i1
    · rw [he, i2]
      simp
    · intro s0 r0 hs0 hd0
      rcases List.mem_cons.mp hs0 with h | h
      · subst h
        have hr0 : r0 = r := by
          rw [hr] at hd0
          exact (Option.some_inj.mp hd0).symm
        subst hr0
        rw [he, i4 s0 hssrc hspne hsks2, a3]
      · have hd1 : (appendChild d p s).nodes s0 = some r0 := by
          rw [a4 s0 (fun hh => hsks2 (hh ▸ h)) (fun hh => hpks (hh ▸ List.mem_cons_of_mem s h))
            (fun hh => hsks (hh ▸ List.mem_cons_of_mem s h)), hd0]
        rw [he]
        exact i3 s0 r0 h hd1
    · intro x hx1 hx2 hx3
      have hxs : x ≠ s := fun h => hx3 (h ▸ List.mem_cons_self s ks)
      have hxks : x ∉ ks := fun h => hx3 (List.mem_cons_of_mem s h)
      rw [he, i4 x hx1 hx2 hxks, a4 x hxs hx2 hx1]
    · rw [he, i5, a5]

theorem getTag_eq {d : Doc} {k : Nat} {tag : String} {p : Option Nat} {cs : List Nat}
    (h : d.nodes k = some ⟨.list tag, p, cs⟩) : getTag d k = tag := by
  simp [getTag, h]

theorem isListNode_eq_true {d : Doc} {k : Nat} {tag : String} {p : Option Nat}
    {cs : List Nat} (h : d.nodes k = some ⟨.list tag, p, cs⟩) :
    isListNode d (some k) = true := by
  simp [isListNode, h]

theorem isListItemNode_eq_true {d : Doc} {k : Nat} {p : Option Nat} {cs : List Nat}
    (h : d.nodes k = some ⟨.item, p, cs⟩) : isListItemNode d (some k) = true := by
  simp [isListItemNode, h]

theorem isNestedListNode_item_eq {d : Doc} {t : Nat} {p : Option Nat} {tcs : List Nat}
    (ht : d.nodes t = some ⟨.item, p, tcs⟩) :
    isNestedListNode d (some t) = isListNode d tcs.head? := by
  simp [isNestedListNode, isListItemNode, ht, getFirstChild, getChildren, Option.bind]

theorem getFirstChild_eq {d : Doc} {k : Nat} {r : NodeRec} (h : d.nodes k = some r) :
    getFirstChild d k = r.children.head? := by
  simp [getFirstChild, getChildren, h]

theorem getLastChild_eq {d : Doc} {k : Nat} {r : NodeRec} (h : d.nodes k = some r) :
    getLastChild d k = r.children.getLast? := by
  simp [getLastChild, getChildren, h]

theorem head?_append_cons_ne {t : Nat} {pre post : List Nat}
    (hpre : pre ≠ []) (hmem : t ∉ pre) : (pre ++ t :: post).head? ≠ some t := by
  cases pre with
  | nil => exact absurd rfl hpre
  | cons x xs =>
    intro h
    simp only [List.cons_append, List.head?_cons] at h
    exact hmem (Option.some_inj.mp h ▸ List.mem_cons_self x xs)

theorem getLast?_append_cons_ne {t : Nat} {pre post : List Nat}
    (hpost : post ≠ []) (hmem : t ∉ post) : (pre ++ t :: post).getLast? ≠ some t := by
  intro h
  rw [List.getLast?_append_cons, show (t :: post) = [t] ++ post from rfl,
    List.getLast?_append_of_ne_nil [t] hpost] at h
  obtain ⟨hne, heq⟩ := List.mem_getLast?_eq_getLast (show t ∈ post.getLast? from h)
  exact hmem (heq ▸ List.getLast_mem hne)

theorem head?_append_cons_self {t : Nat} {post : List Nat} :
    (([] : List Nat) ++ t :: post).head? = some t := rfl

theorem getPreviousSiblings_eq {d : Doc} {t pl : Nat} {tr plr : NodeRec}
    (ht : d.nodes t = some tr) (htp : tr.parent = some pl)
    (hpl : d.nodes pl = some plr) :
    getPreviousSiblings d t = takeUntil t plr.children := by
  have h1 : getParent d t = some pl := by rw [getParent_eq ht, htp]
  simp [getPreviousSiblings, h1, getChildren, hpl]

theorem getNextSiblings_eq {d : Doc} {t pl : Nat} {tr plr : NodeRec}
    (ht : d.nodes t = some tr) (htp : tr.parent = some pl)
    (hpl : d.nodes pl = some plr) :
    getNextSiblings d t = (dropUntil t plr.children).drop 1 := by
  have h1 : getParent d t = some pl := by rw [getParent_eq ht, htp]
  simp [getNextSiblings, h1, getChildren, hpl]

theorem createListItemNode_spec (d : Doc) :
    (createListItemNode d).1 = d.nextKey ∧
    ((createListItemNode d).2).nodes d.nextKey = some ⟨.item, none, []⟩ ∧
    (∀ x, x ≠ d.nextKey → ((createListItemNode d).2).nodes x = d.nodes x) ∧
    ((createListItemNode d).2).nextKey = d.nextKey + 1 := by
  refine ⟨rfl, setN_self _ _ _, ?_, rfl⟩
  intro x hx
  exact setN_ne _ _ _ hx

theorem createListNode_spec (tag : String) (d : Doc) :
    (createListNode tag d).1 = d.nextKey ∧
    ((createListNode tag d).2).nodes d.nextKey = some ⟨.list tag, none, []⟩ ∧
    (∀ x, x ≠ d.nextKey → ((createListNode tag d).2).nodes x = d.nodes x) ∧
    ((createListNode tag d).2).nextKey = d.nextKey + 1 := by
  refine ⟨rfl, setN_self _ _ _, ?_, rfl⟩
  intro x hx
  exact setN_ne _ _ _ hx

theorem outdentSplitCase_spec {d : Doc} {t pl gp ggp : Nat} {tag gtag : String}
    {gpar : Option Nat} {tcs gpcs gpre gpost pre post : List Nat}
    (hfresh : ∀ k r, d.nodes k = some r → k < d.nextKey)
    (ht : d.nodes t = some ⟨.item, some pl, tcs⟩)
    (hpl : d.nodes pl = some ⟨.list tag, some gp, pre ++ t :: post⟩)
    (hgp : d.nodes gp = some ⟨.item, some ggp, gpcs⟩)
    (hggp : d.nodes ggp = some ⟨.list gtag, gpar, gpre ++ gp :: gpost⟩)
    (hpremem : ∀ s ∈ pre, ∃ r, d.nodes s = some r ∧ r.parent = some pl)
    (hpostmem : ∀ s ∈ post, ∃ r, d.nodes s = some r ∧ r.parent = some pl)
    (htpre : t ∉ pre) (htpost : t ∉ post)
    (hprend : pre.Nodup) (hpostnd : post.Nodup)
    (hdisj : ∀ s ∈ pre, s ∉ post)
    (htpl : t ≠ pl) (htgp : t ≠ gp) (htggp : t ≠ ggp)
    (hplgp : pl ≠ gp) (hplggp : pl ≠ ggp) (hgpggp : gp ≠ ggp)
    (hplpre : pl ∉ pre) (hplpost : pl ∉ post)
    (hgppre : gp ∉ pre) (hgppost : gp ∉ post)
    (hggppre : ggp ∉ pre) (hggppost : ggp ∉ post)
    (hgpgpre : gp ∉ gpre) :
    (outdentSplitCase d t gp tag).nodes ggp =
      some ⟨.list gtag, gpar, gpre ++ d.nextKey :: t :: (d.nextKey + 2) :: gpost⟩ ∧
    (outdentSplitCase d t gp tag).nodes d.nextKey = some ⟨.item, some ggp, [d.nextKey + 1]⟩ ∧
    (outdentSplitCase d t gp tag).nodes (d.nextKey + 1) =
      some ⟨.list tag, some d.nextKey, pre⟩ ∧
    (outdentSplitCase d t gp tag).nodes (d.nextKey + 2) =
      some ⟨.item, some ggp, [d.nextKey + 3]⟩ ∧
    (outdentSplitCase d t gp tag).nodes (d.nextKey + 3) =
      some ⟨.list tag, some (d.nextKey + 2), post⟩ ∧
    (outdentSplitCase d t gp tag).nodes t = some ⟨.item, some ggp, tcs⟩ ∧
    (outdentSplitCase d t gp tag).nodes pl = some ⟨.list tag, some gp, []⟩ ∧
    (outdentSplitCase d t gp tag).nodes gp = some ⟨.item, none, gpcs⟩ ∧
    (∀ s r, s ∈ pre → d.nodes s = some r →
      (outdentSplitCase d t gp tag).nodes s = some { r with parent := some (d.nextKey + 1) }) ∧
    (∀ s r, s ∈ post → d.nodes s = some r →
      (outdentSplitCase d t gp tag).nodes s = some { r with parent := some (d.nextKey + 3) }) ∧
    (∀ x, x ≠ t → x ≠ pl → x ≠ gp → x ≠ ggp → x ∉ pre → x ∉ post →
      x ≠ d.nextKey → x ≠ d.nextKey + 1 → x ≠ d.nextKey + 2 → x ≠ d.nextKey + 3 →
      (outdentSplitCase d t gp tag).nodes x = d.nodes x) ∧
    (outdentSplitCase d t gp tag).nextKey = d.nextKey + 4 := by
  have hbt : t < d.nextKey := hfresh t _ ht
  have hbpl : pl < d.nextKey := hfresh pl _ hpl
  have hbgp : gp < d.nextKey := hfresh gp _ hgp
  have hbggp : ggp < d.nextKey := hfresh ggp _ hggp
  have hbpre : ∀ s ∈ pre, s < d.nextKey := by
    intro s hs
    obtain ⟨r, hr, _⟩ := hpremem s hs
    exact hfresh s r hr
  have hbpost : ∀ s ∈ post, s < d.nextKey := by
    intro s hs
    obtain ⟨r, hr, _⟩ := hpostmem s hs
    exact hfresh s r hr
  -- step B: the two fresh nodes of the previous-siblings wrapper
  let dB : Doc := (createListNode tag (createListItemNode d).2).2
  have hB_i : dB.nodes d.nextKey = some ⟨.item, none, []⟩ := by
    show setN (setN d.nodes d.nextKey ⟨.item, none, []⟩) (d.nextKey + 1)
      ⟨.list tag, none, []⟩ d.nextKey = _
    rw [setN_ne _ _ _ (by omega), setN_self]
  have hB_k : dB.nodes (d.nextKey + 1) = some ⟨.list tag, none, []⟩ := by
    show setN (setN d.nodes d.nextKey ⟨.item, none, []⟩) (d.nextKey + 1)
      ⟨.list tag, none, []⟩ (d.nextKey + 1) = _
    rw [setN_self]
  have hB_f : ∀ x, x ≠ d.nextKey → x ≠ d.nextKey + 1 → dB.nodes x = d.nodes x := by
    intro x h1 h2
    show setN (setN d.nodes d.nextKey ⟨.item, none, []⟩) (d.nextKey + 1)
      ⟨.list tag, none, []⟩ x = _
    rw [setN_ne _ _ _ h2, setN_ne _ _ _ h1]
  -- step C: wire the previous-siblings list into its wrapper item
  let dC : Doc := appendChild dB d.nextKey (d.nextKey + 1)
  obtain ⟨c1, c2, c3, c4⟩ := appendChild_noParent_spec hB_k rfl hB_i (by omega)
  have hC_i : dC.nodes d.nextKey = some ⟨.item, none, [d.nextKey + 1]⟩ := c1
  have hC_k : dC.nodes (d.nextKey + 1) = some ⟨.list tag, some d.nextKey, []⟩ := c2
  have hC_f : ∀ x, x ≠ d.nextKey → x ≠ d.nextKey + 1 → dC.nodes x = d.nodes x := by
    intro x h1 h2
    rw [show dC.nodes x = dB.nodes x from c3 x h2 h1, hB_f x h1 h2]
  have hC_nk : dC.nextKey = d.nextKey + 2 := c4
  have hC_t : dC.nodes t = some ⟨.item, some pl, tcs⟩ := by
    rw [hC_f t (by omega) (by omega), ht]
  have hC_pl : dC.nodes pl = some ⟨.list tag, some gp, pre ++ t :: post⟩ := by
    rw [hC_f pl (by omega) (by omega), hpl]
  -- preceding siblings of the target, read in dC
  have hsibPre : getPreviousSiblings dC t = pre := by
    rw [getPreviousSiblings_eq hC_t rfl hC_pl]
    exact takeUntil_append _ htpre
  -- step D: move the preceding siblings into the new list
  let dD : Doc := appendChildren dC (d.nextKey + 1) (getPreviousSiblings dC t)
  have hDeq : dD = appendChildren dC (d.nextKey + 1) pre := by
    show appendChildren dC (d.nextKey + 1) (getPreviousSiblings dC t) = _
    rw [hsibPre]
  obtain ⟨p1, p2, p3, p4, p5⟩ := appendChildren_spec hC_pl
    (show (⟨.list tag, some gp, pre ++ t :: post⟩ : NodeRec).children
      = [] ++ pre ++ (t :: post) from rfl)
    hC_k
    (by
      intro s hs
      obtain ⟨r, hr, hrp⟩ := hpremem s hs
      have hb := hbpre s hs
      exact ⟨r, by rw [hC_f s (by omega) (by omega), hr], hrp⟩)
    hprend
    (fun s _ => List.not_mem_nil s)
    (by
      intro s hs
      simp only [List.mem_cons, not_or]
      exact ⟨fun h => htpre (h ▸ hs), hdisj s hs⟩)
    (by omega)
    hplpre
    (fun h => by have := hbpre _ h; omega)
  have hD_pl : dD.nodes pl = some ⟨.list tag, some gp, t :: post⟩ := by
    rw [hDeq]; exact p1
  have hD_k : dD.nodes (d.nextKey + 1) = some ⟨.list tag, some d.nextKey, pre⟩ := by
    rw [hDeq]; exact p2
  have hD_pre : ∀ s r, s ∈ pre → dC.nodes s = some r →
      dD.nodes s = some { r with parent := some (d.nextKey + 1) } := by
    intro s r hs hr
    rw [hDeq]; exact p3 s r hs hr
  have hD_f : ∀ x, x ≠ pl → x ≠ d.nextKey + 1 → x ∉ pre → dD.nodes x = dC.nodes x := by
    intro x h1 h2 h3
    rw [hDeq]; exact p4 x h1 h2 h3
  have hD_nk : dD.nextKey = d.nextKey + 2 := by
    rw [hDeq, p5, hC_nk]
  have hD_t : dD.nodes t = some ⟨.item, some pl, tcs⟩ := by
    rw [hD_f t htpl (by omega) htpre, hC_t]
  have hD_i : dD.nodes d.nextKey = some ⟨.item, none, [d.nextKey + 1]⟩ := by
    rw [hD_f _ (by omega) (by omega) (fun h => by have := hbpre _ h; omega), hC_i]
  have hD_gp : dD.nodes gp = some ⟨.item, some ggp, gpcs⟩ := by
    rw [hD_f gp (Ne.symm hplgp) (by omega) hgppre, hC_f gp (by omega) (by omega), hgp]
  have hD_ggp : dD.nodes ggp = some ⟨.list gtag, gpar, gpre ++ gp :: gpost⟩ := by
    rw [hD_f ggp (Ne.symm hplggp) (by omega) hggppre, hC_f ggp (by omega) (by omega), hggp]
  have hD_post : ∀ s ∈ post, ∃ r, d.nodes s = some r ∧ dD.nodes s = some r ∧
      r.parent = some pl := by
    intro s hs
    obtain ⟨r, hr, hrp⟩ := hpostmem s hs
    have hb := hbpost s hs
    refine ⟨r, hr, ?_, hrp⟩
    rw [hD_f s (fun h => hplpost (h ▸ hs)) (by omega) (fun h => hdisj s h hs),
      hC_f s (by omega) (by omega), hr]
  -- steps E-G: the two fresh nodes of the next-siblings wrapper, wired together
  let dF : Doc := (createListNode tag (createListItemNode dD).2).2
  have hF_i : dF.nodes dD.nextKey = some ⟨.item, none, []⟩ := by
    show setN (setN dD.nodes dD.nextKey ⟨.item, none, []⟩) (dD.nextKey + 1)
      ⟨.list tag, none, []⟩ dD.nextKey = _
    rw [setN_ne _ _ _ (by omega), setN_self]
  have hF_k : dF.nodes (dD.nextKey + 1) = some ⟨.list tag, none, []⟩ := by
    show setN (setN dD.nodes dD.nextKey ⟨.item, none, []⟩) (dD.nextKey + 1)
      ⟨.list tag, none, []⟩ (dD.nextKey + 1) = _
    rw [setN_self]
  have hF_f : ∀ x, x ≠ dD.nextKey → x ≠ dD.nextKey + 1 → dF.nodes x = dD.nodes x := by
    intro x h1 h2
    show setN (setN dD.nodes dD.nextKey ⟨.item, none, []⟩) (dD.nextKey + 1)
      ⟨.list tag, none, []⟩ x = _
    rw [setN_ne _ _ _ h2, setN_ne _ _ _ h1]
  let dG : Doc := appendChild dF dD.nextKey (dD.nextKey + 1)
  obtain ⟨g1, g2, g3, g4⟩ := appendChild_noParent_spec hF_k rfl hF_i (by omega)
  have hGD_f : ∀ x, x ≠ d.nextKey + 2 → x ≠ d.nextKey + 3 → dG.nodes x = dD.nodes x := by
    intro x h1 h2
    rw [show dG.nodes x = dF.nodes x from g3 x (by omega) (by omega),
      hF_f x (by omega) (by omega)]
  have hG_f : ∀ x, x ≠ pl → x ∉ pre → x ≠ d.nextKey → x ≠ d.nextKey + 1 →
      x ≠ d.nextKey + 2 → x ≠ d.nextKey + 3 → dG.nodes x = d.nodes x := by
    intro x h1 h2 h3 h4 h5 h6
    rw [hGD_f x h5 h6, hD_f x h1 h4 h2, hC_f x h3 h4]
  have hG_t : dG.nodes t = some ⟨.item, some pl, tcs⟩ := by
    rw [hGD_f t (by omega) (by omega), hD_t]
  have hG_pl : dG.nodes pl = some ⟨.list tag, some gp, t :: post⟩ := by
    rw [hGD_f pl (by omega) (by omega), hD_pl]
  have hG_gp : dG.nodes gp = some ⟨.item, some ggp, gpcs⟩ := by
    rw [hGD_f gp (by omega) (by omega), hD_gp]
  have hG_ggp : dG.nodes ggp = some ⟨.list gtag, gpar, gpre ++ gp :: gpost⟩ := by
    rw [hGD_f ggp (by omega) (by omega), hD_ggp]
  have hG_i1 : dG.nodes d.nextKey = some ⟨.item, none, [d.nextKey + 1]⟩ := by
    rw [hGD_f _ (by omega) (by omega), hD_i]
  have hG_k1 : dG.nodes (d.nextKey + 1) = some ⟨.list tag, some d.nextKey, pre⟩ := by
    rw [hGD_f _ (by omega) (by omega), hD_k]
  have hkey2 : dG.nodes (d.nextKey + 2) = dG.nodes dD.nextKey := by rw [hD_nk]
  have hkey3 : dG.nodes (d.nextKey + 3) = dG.nodes (dD.nextKey + 1) := by
    rw [hD_nk]
  have hG_i2 : dG.nodes (d.nextKey + 2) = some ⟨.item, none, [d.nextKey + 3]⟩ := by
    rw [hkey2, show (⟨.item, none, [d.nextKey + 3]⟩ : NodeRec)
      = ⟨.item, none, [dD.nextKey + 1]⟩ by rw [hD_nk]]
    exact g1
  have hG_k2 : dG.nodes (d.nextKey + 3) = some ⟨.list tag, some (d.nextKey + 2), []⟩ := by
    rw [hkey3, show (⟨.list tag, some (d.nextKey + 2), []⟩ : NodeRec)
      = ⟨.list tag, some dD.nextKey, []⟩ by rw [hD_nk]]
    exact g2
  -- following siblings of the target, read in dG
  have hsibPost : getNextSiblings dG t = post := by
    rw [getNextSiblings_eq hG_t rfl hG_pl]
    simp [dropUntil]
  -- step H: move the following siblings into the new list
  let dH : Doc := appendChildren dG (dD.nextKey + 1) (getNextSiblings dG t)
  have hHeq : dH = appendChildren dG (dD.nextKey + 1) post := by
    show appendChildren dG (dD.nextKey + 1) (getNextSiblings dG t) = _
    rw [hsibPost]
  have hG_k2' : dG.nodes (dD.nextKey + 1) = some ⟨.list tag, some dD.nextKey, []⟩ := by
    rw [← hkey3, hG_k2, show (⟨.list tag, some (d.nextKey + 2), []⟩ : NodeRec)
      = ⟨.list tag, some dD.nextKey, []⟩ by rw [hD_nk]]
  obtain ⟨q1, q2, q3, q4, q5⟩ := appendChildren_spec hG_pl
    (show (⟨.list tag, some gp, t :: post⟩ : NodeRec).children
      = [t] ++ post ++ ([] : List Nat) by simp)
    hG_k2'
    (by
      intro s hs
      obtain ⟨r, hr, hDr, hrp⟩ := hD_post s hs
      have hb := hbpost s hs
      refine ⟨r, ?_, hrp⟩
      rw [hGD_f s (by omega) (by omega), hDr])
    hpostnd
    (by
      intro s hs
      simp only [List.mem_singleton]
      exact fun h => htpost (h ▸ hs))
    (fun s _ => List.not_mem_nil s)
    (by omega)
    hplpost
    (fun h => by have := hbpost _ h; omega)
  have hH_pl : dH.nodes pl = some ⟨.list tag, some gp, [t]⟩ := by
    rw [hHeq]; exact q1
  have hH_k3 : dH.nodes (d.nextKey + 3) = some ⟨.list tag, some (d.nextKey + 2), post⟩ := by
    have hkeyH : dH.nodes (d.nextKey + 3) = dH.nodes (dD.nextKey + 1) := by rw [hD_nk]
    rw [hkeyH, show (⟨.list tag, some (d.nextKey + 2), post⟩ : NodeRec)
      = ⟨.list tag, some dD.nextKey, post⟩ by rw [hD_nk], hHeq]
    exact q2
  have hH_post : ∀ s r, s ∈ post → d.nodes s = some r →
      dH.nodes s = some { r with parent := some (d.nextKey + 3) } := by
    intro s r hs hr
    have hb := hbpost s hs
    have hGr : dG.nodes s = some r := by
      rw [hG_f s (fun h => hplpost (h ▸ hs)) (fun h => hdisj s h hs)
        (by omega) (by omega) (by omega) (by omega), hr]
    rw [show ({ r with parent := some (d.nextKey + 3) } : NodeRec)
      = { r with parent := some (dD.nextKey + 1) } by rw [hD_nk], hHeq]
    exact q3 s r hs hGr
  have hH_f : ∀ x, x ≠ pl → x ≠ d.nextKey + 3 → x ∉ post → dH.nodes x = dG.nodes x := by
    intro x h1 h2 h3
    rw [hHeq]
    exact q4 x h1 (by omega) h3
  have hH_nk : dH.nextKey = d.nextKey + 4 := by
    have hg : dG.nextKey = dD.nextKey + 2 := g4
    rw [hHeq, q5]
    omega
  have hH_t : dH.nodes t = some ⟨.item, some pl, tcs⟩ := by
    rw [hH_f t htpl (by omega) htpost, hG_t]
  have hH_gp : dH.nodes gp = some ⟨.item, some ggp, gpcs⟩ := by
    rw [hH_f gp (Ne.symm hplgp) (by omega) hgppost, hG_gp]
  have hH_ggp : dH.nodes ggp = some ⟨.list gtag, gpar, gpre ++ gp :: gpost⟩ := by
    rw [hH_f ggp (Ne.symm hplggp) (by omega) hggppost, hG_ggp]
  have hH_i1 : dH.nodes d.nextKey = some ⟨.item, none, [d.nextKey + 1]⟩ := by
    rw [hH_f _ (by omega) (by omega) (fun h => by have := hbpost _ h; omega), hG_i1]
  have hH_k1 : dH.nodes (d.nextKey + 1) = some ⟨.list tag, some d.nextKey, pre⟩ := by
    rw [hH_f _ (by omega) (by omega) (fun h => by have := hbpost _ h; omega), hG_k1]
  have hH_i2 : dH.nodes (d.nextKey + 2) = some ⟨.item, none, [d.nextKey + 3]⟩ := by
    rw [hH_f _ (by omega) (by omega) (fun h => by have := hbpost _ h; omega), hG_i2]
  -- step I: insert the previous-siblings wrapper before the grandparent
  let dI : Doc := insertBefore dH gp d.nextKey
  obtain ⟨i1, i2, i3, i4⟩ := insertBefore_noParent_spec hH_i1 rfl hH_gp rfl hH_ggp rfl
    hgpgpre (by omega)
  have hI_ggp : dI.nodes ggp =
      some ⟨.list gtag, gpar, gpre ++ d.nextKey :: gp :: gpost⟩ := i1
  have hI_i1 : dI.nodes d.nextKey = some ⟨.item, some ggp, [d.nextKey + 1]⟩ := i2
  have hI_f : ∀ x, x ≠ d.nextKey → x ≠ ggp → dI.nodes x = dH.nodes x := i3
  have hI_t : dI.nodes t = some ⟨.item, some pl, tcs⟩ := by
    rw [hI_f t (by omega) htggp, hH_t]
  have hI_gp : dI.nodes gp = some ⟨.item, some ggp, gpcs⟩ := by
    rw [hI_f gp (by omega) hgpggp, hH_gp]
  have hI_pl : dI.nodes pl = some ⟨.list tag, some gp, [t]⟩ := by
    rw [hI_f pl (by omega) hplggp, hH_pl]
  have hI_k1 : dI.nodes (d.nextKey + 1) = some ⟨.list tag, some d.nextKey, pre⟩ := by
    rw [hI_f _ (by omega) (by omega), hH_k1]
  have hI_i2 : dI.nodes (d.nextKey + 2) = some ⟨.item, none, [d.nextKey + 3]⟩ := by
    rw [hI_f _ (by omega) (by omega), hH_i2]
  have hI_k3 : dI.nodes (d.nextKey + 3) = some ⟨.list tag, some (d.nextKey + 2), post⟩ := by
    rw [hI_f _ (by omega) (by omega), hH_k3]
  -- step J: insert the next-siblings wrapper after the grandparent
  let dJ : Doc := insertAfter dI gp dD.nextKey
  obtain ⟨j1, j2, j3, j4⟩ := insertAfter_noParent_spec
    (show dI.nodes dD.nextKey = some ⟨.item, none, [d.nextKey + 3]⟩ by
      rw [hD_nk]; exact hI_i2)
    rfl hI_gp rfl hI_ggp
    (show (⟨.list gtag, gpar, gpre ++ d.nextKey :: gp :: gpost⟩ : NodeRec).children
      = (gpre ++ [d.nextKey]) ++ gp :: gpost by simp)
    (by
      simp only [List.mem_append, List.mem_singleton, not_or]
      exact ⟨hgpgpre, by omega⟩)
    (by omega)
  have hJ_ggp : dJ.nodes ggp =
      some ⟨.list gtag, gpar, (gpre ++ [d.nextKey]) ++ gp :: (d.nextKey + 2) :: gpost⟩ := by
    rw [show (⟨.list gtag, gpar,
        (gpre ++ [d.nextKey]) ++ gp :: (d.nextKey + 2) :: gpost⟩ : NodeRec)
      = ⟨.list gtag, gpar, (gpre ++ [d.nextKey]) ++ gp :: dD.nextKey :: gpost⟩ by
        rw [hD_nk]]
    exact j1
  have hJ_f : ∀ x, x ≠ d.nextKey + 2 → x ≠ ggp → dJ.nodes x = dI.nodes x := by
    intro x h1 h2
    exact j3 x (by omega) h2
  have hJ_i2 : dJ.nodes (d.nextKey + 2) = some ⟨.item, some ggp, [d.nextKey + 3]⟩ := by
    have hkeyJ : dJ.nodes (d.nextKey + 2) = dJ.nodes dD.nextKey := by rw [hD_nk]
    rw [hkeyJ]
    exact j2
  have hJ_t : dJ.nodes t = some ⟨.item, some pl, tcs⟩ := by
    rw [hJ_f t (by omega) htggp, hI_t]
  have hJ_gp : dJ.nodes gp = some ⟨.item, some ggp, gpcs⟩ := by
    rw [hJ_f gp (by omega) hgpggp, hI_gp]
  have hJ_pl : dJ.nodes pl = some ⟨.list tag, some gp, [t]⟩ := by
    rw [hJ_f pl (by omega) hplggp, hI_pl]
  have hJ_i1 : dJ.nodes d.nextKey = some ⟨.item, some ggp, [d.nextKey + 1]⟩ := by
    rw [hJ_f _ (by omega) (by omega), hI_i1]
  have hJ_k1 : dJ.nodes (d.nextKey + 1) = some ⟨.list tag, some d.nextKey, pre⟩ := by
    rw [hJ_f _ (by omega) (by omega), hI_k1]
  have hJ_k3 : dJ.nodes (d.nextKey + 3) = some ⟨.list tag, some (d.nextKey + 2), post⟩ := by
    rw [hJ_f _ (by omega) (by omega), hI_k3]
  -- step K: replace the grandparent with the outdented target
  obtain ⟨k1, k2, k3, k4, k5, k6⟩ := replaceNode_spec hJ_t rfl hJ_pl hJ_gp rfl hJ_ggp
    rfl
    (by
      simp only [List.mem_append, List.mem_singleton, not_or]
      exact ⟨hgpgpre, by omega⟩)
    htpl htggp hplggp (Ne.symm htgp) (Ne.symm hplgp) hgpggp
  have he : outdentSplitCase d t gp tag = replaceNode dJ gp t := rfl
  have hliftH : ∀ x, x ≠ gp → x ≠ t → x ≠ ggp → x ≠ pl → x ≠ d.nextKey →
      x ≠ d.nextKey + 2 → (replaceNode dJ gp t).nodes x = dH.nodes x := by
    intro x h1 h2 h3 h4 h5 h6
    rw [k5 x h1 h2 h3 h4, hJ_f x h6 h3, hI_f x h5 h3]
  refine ⟨?_, ?_, ?_, ?_, ?_, ?_, ?_, ?_, ?_, ?_, ?_, ?_⟩
  · rw [he, k1]
    simp
  · rw [he, k5 _ (by omega) (by omega) (by omega) (by omega), hJ_i1]
  · rw [he, k5 _ (by omega) (by omega) (by omega) (by omega), hJ_k1]
  · rw [he, k5 _ (by omega) (by omega) (by omega) (by omega), hJ_i2]
  · rw [he, k5 _ (by omega) (by omega) (by omega) (by omega), hJ_k3]
  · rw [he]
    exact k2
  · rw [he, k4]
    simp [eraseKey]
  · rw [he]
    exact k3
  · intro s r hs hr
    have hb := hbpre s hs
    have hCr : dC.nodes s = some r := by
      rw [hC_f s (by omega) (by omega), hr]
    have hDr := hD_pre s r hs hCr
    rw [he, hliftH s (fun h => hgppre (h ▸ hs)) (fun h => htpre (h ▸ hs))
      (fun h => hggppre (h ▸ hs)) (fun h => hplpre (h ▸ hs)) (by omega) (by omega),
      hH_f s (fun h => hplpre (h ▸ hs)) (by omega) (fun h => hdisj s hs h),
      hGD_f s (by omega) (by omega), hDr]
  · intro s r hs hr
    have hb := hbpost s hs
    rw [he, hliftH s (fun h => hgppost (h ▸ hs)) (fun h => htpost (h ▸ hs))
      (fun h => hggppost (h ▸ hs)) (fun h => hplpost (h ▸ hs)) (by omega) (by omega)]
    exact hH_post s r hs hr
  · intro x h1 h2 h3 h4 h5 h6 h7 h8 h9 h10
    rw [he, hliftH x (Ne.symm (Ne.symm h3)) h1 h4 h2 h7 h9,
      hH_f x h2 h10 h6, hG_f x h2 h5 h7 h8 h9 h10]
  · rw [he, k6, j4, i4, hH_nk]

theorem outdentOne_split_eq {d : Doc} {t pl gp ggp : Nat} {tag gtag : String}
    {gpar : Option Nat} {tcs gpcs gcs : List Nat} {pre post : List Nat}
    (ht : d.nodes t = some ⟨.item, some pl, tcs⟩)
    (hpl : d.nodes pl = some ⟨.list tag, some gp, pre ++ t :: post⟩)
    (hgp : d.nodes gp = some ⟨.item, some ggp, gpcs⟩)
    (hggp : d.nodes ggp = some ⟨.list gtag, gpar, gcs⟩)
    (hnn : isListNode d tcs.head? = false)
    (hpre : pre ≠ []) (hpost : post ≠ [])
    (htpre : t ∉ pre) (htpost : t ∉ post) :
    outdentOne d t = outdentSplitCase d t gp tag := by
  have h1 : isNestedListNode d (some t) = false := by
    rw [isNestedListNode_item_eq ht]
    exact hnn
  have h2 : getParent d t = some pl := by rw [getParent_eq ht]
  have h3 : getParent d pl = some gp := by rw [getParent_eq hpl]
  have h4 : getParent d gp = some ggp := by rw [getParent_eq hgp]
  have h5 : isListNode d (some ggp) = true := isListNode_eq_true hggp
  have h6 : isListItemNode d (some gp) = true := isListItemNode_eq_true hgp
  have h7 : isListNode d (some pl) = true := isListNode_eq_true hpl
  have h10 : ¬(getFirstChild d pl = some t) := by
    rw [getFirstChild_eq hpl]
    exact head?_append_cons_ne hpre htpre
  have h11 : ¬(getLastChild d pl = some t) := by
    rw [getLastChild_eq hpl]
    exact getLast?_append_cons_ne hpost htpost
  have h12 : getTag d pl = tag := getTag_eq hpl
  rw [outdentOne, h1]
  simp only [Bool.false_eq_true, if_false, h2, Option.some_bind, h3, h4, h5, h6, h7,
    Bool.and_self, if_true, h10, h11, h12, markChildrenDirty_eq, ite_false]

theorem lookupEntry_keyBound {entries : List (Nat × NodeRec)} {nk : Nat}
    (hb : ∀ e ∈ entries, e.1 < nk) :
    ∀ k r, lookupEntry k entries = some r → k < nk := by
  intro k r h
  induction entries with
  | nil => simp [lookupEntry] at h
  | cons e es ih =>
    rw [lookupEntry] at h
    by_cases he : e.1 = k
    · exact he ▸ hb e (List.mem_cons_self e es)
    · rw [if_neg he] at h
      exact ih (fun e2 h2 => hb e2 (List.mem_cons_of_mem e h2)) h

/-- C3: for every valid-ancestry target that is an interior child (neither
first nor last) of its parent List, outdent replaces the grandparent
ListItem's position in the great-grandparent List with three siblings in
order: a fresh ListItem/List wrapper (same tag as the parent List) holding
all preceding siblings, the target itself, and a fresh wrapper holding all
following siblings. -/
theorem c3_outdent_interior_split {d : Doc} {t pl gp ggp : Nat} {tag gtag : String}
    {gpar : Option Nat} {tcs gpcs gpre gpost pre post : List Nat}
    (hfresh : ∀ k r, d.nodes k = some r → k < d.nextKey)
    (ht : d.nodes t = some ⟨.item, some pl, tcs⟩)
    (hpl : d.nodes pl = some ⟨.list tag, some gp, pre ++ t :: post⟩)
    (hgp : d.nodes gp = some ⟨.item, some ggp, gpcs⟩)
    (hggp : d.nodes ggp = some ⟨.list gtag, gpar, gpre ++ gp :: gpost⟩)
    (hnn : isListNode d tcs.head? = false)
    (hpre : pre ≠ []) (hpost : post ≠ [])
    (hpremem : ∀ s ∈ pre, ∃ r, d.nodes s = some r ∧ r.parent = some pl)
    (hpostmem : ∀ s ∈ post, ∃ r, d.nodes s = some r ∧ r.parent = some pl)
    (htpre : t ∉ pre) (htpost : t ∉ post)
    (hprend : pre.Nodup) (hpostnd : post.Nodup)
    (hdisj : ∀ s ∈ pre, s ∉ post)
    (htpl : t ≠ pl) (htgp : t ≠ gp) (htggp : t ≠ ggp)
    (hplgp : pl ≠ gp) (hplggp : pl ≠ ggp) (hgpggp : gp ≠ ggp)
    (hplpre : pl ∉ pre) (hplpost : pl ∉ post)
    (hgppre : gp ∉ pre) (hgppost : gp ∉ post)
    (hggppre : ggp ∉ pre) (hggppost : ggp ∉ post)
    (hgpgpre : gp ∉ gpre) :
    (handleOutdent d [t]).nodes ggp =
      some ⟨.list gtag, gpar, gpre ++ d.nextKey :: t :: (d.nextKey + 2) :: gpost⟩ ∧
    (handleOutdent d [t]).nodes d.nextKey = some ⟨.item, some ggp, [d.nextKey + 1]⟩ ∧
    (handleOutdent d [t]).nodes (d.nextKey + 1) = some ⟨.list tag, some d.nextKey, pre⟩ ∧
    (handleOutdent d [t]).nodes (d.nextKey + 2) = some ⟨.item, some ggp, [d.nextKey + 3]⟩ ∧
    (handleOutdent d [t]).nodes (d.nextKey + 3) =
      some ⟨.list tag, some (d.nextKey + 2), post⟩ ∧
    (handleOutdent d [t]).nodes t = some ⟨.item, some ggp, tcs⟩ ∧
    (∀ s r, s ∈ pre → d.nodes s = some r →
      (handleOutdent d [t]).nodes s = some { r with parent := some (d.nextKey + 1) }) ∧
    (∀ s r, s ∈ post → d.nodes s = some r →
      (handleOutdent d [t]).nodes s = some { r with parent := some (d.nextKey + 3) }) := by
  have he : handleOutdent d [t] = outdentSplitCase d t gp tag := by
    show outdentOne d t = _
    exact outdentOne_split_eq ht hpl hgp hggp hnn hpre hpost htpre htpost
  obtain ⟨s1, s2, s3, s4, s5, s6, s7, s8, s9, s10, s11, s12⟩ :=
    outdentSplitCase_spec hfresh ht hpl hgp hggp hpremem hpostmem htpre htpost
      hprend hpostnd hdisj htpl htgp htggp hplgp hplggp hgpggp hplpre hplpost
      hgppre hgppost hggppre hggppost hgpgpre
  rw [he]
  exact ⟨s1, s2, s3, s4, s5, s6, s9, s10⟩

/-- Concrete document for the split scenario: great-grandparent List 0 holds
grandparent ListItem 1 wrapping parent List 2 with children [W=3, X=4, Y=5,
Z=6]. -/
def splitDoc : Doc :=
  docOfEntries
    [(0, ⟨.list "ul", none, [1]⟩),
     (1, ⟨.item, some 0, [2]⟩),
     (2, ⟨.list "ul", some 1, [3, 4, 5, 6]⟩),
     (3, ⟨.item, some 2, []⟩),
     (4, ⟨.item, some 2, []⟩),
     (5, ⟨.item, some 2, []⟩),
     (6, ⟨.item, some 2, []⟩)]
    7

theorem c3_outdent_interior_split_witness :
    (handleOutdent splitDoc [5]).nodes 0 = some ⟨.list "ul", none, [7, 5, 9]⟩ ∧
    (handleOutdent splitDoc [5]).nodes 7 = some ⟨.item, some 0, [8]⟩ ∧
    (handleOutdent splitDoc [5]).nodes 8 = some ⟨.list "ul", some 7, [3, 4]⟩ ∧
    (handleOutdent splitDoc [5]).nodes 9 = some ⟨.item, some 0, [10]⟩ ∧
    (handleOutdent splitDoc [5]).nodes 10 = some ⟨.list "ul", some 9, [6]⟩ ∧
    (handleOutdent splitDoc [5]).nodes 5 = some ⟨.item, some 0, []⟩ := by
  obtain ⟨h1, h2, h3, h4, h5, h6, _, _⟩ :=
    @c3_outdent_interior_split splitDoc 5 2 1 0 "ul" "ul" none [] [2] [] [] [3, 4] [6]
      (lookupEntry_keyBound (by decide)) rfl rfl rfl rfl (by decide)
      (by decide) (by decide)
      (by
        intro s hs
        simp only [List.mem_cons, List.not_mem_nil, or_false] at hs
        rcases hs with rfl | rfl
        · exact ⟨_, rfl, rfl⟩
        · exact ⟨_, rfl, rfl⟩)
      (by
        intro s hs
        simp only [List.mem_singleton] at hs
        subst hs
        exact ⟨_, rfl, rfl⟩)
      (by decide) (by decide) (by decide) (by decide)
      (by decide)
      (by decide) (by decide) (by decide) (by decide) (by decide) (by decide)
      (by decide) (by decide) (by decide) (by decide) (by decide) (by decide)
      (by decide)
  exact ⟨h1, h2, h3, h4, h5, h6⟩

theorem isEmpty_false_of_mem {l : List Nat} {x : Nat} (h : x ∈ l) : l.isEmpty = false := by
  cases l
  · exact absurd h (List.not_mem_nil x)
  · rfl

theorem outdentFirstCase_keep_spec {d : Doc} {t pl gp ggp : Nat} {tag gtag : String}
    {gpar : Option Nat} {tcs gpcs gpre gpost post : List Nat}
    (ht : d.nodes t = some ⟨.item, some pl, tcs⟩)
    (hpl : d.nodes pl = some ⟨.list tag, some gp, t :: post⟩)
    (hgp : d.nodes gp = some ⟨.item, some ggp, gpcs⟩)
    (hggp : d.nodes ggp = some ⟨.list gtag, gpar, gpre ++ gp :: gpost⟩)
    (hpost : post ≠ [])
    (htpl : t ≠ pl) (htgp : t ≠ gp) (htggp : t ≠ ggp)
    (hplgp : pl ≠ gp) (hplggp : pl ≠ ggp) (hgpggp : gp ≠ ggp)
    (hgpgpre : gp ∉ gpre) :
    (outdentFirstCase d t pl gp).nodes ggp =
      some ⟨.list gtag, gpar, gpre ++ t :: gp :: gpost⟩ ∧
    (outdentFirstCase d t pl gp).nodes t = some ⟨.item, some ggp, tcs⟩ ∧
    (outdentFirstCase d t pl gp).nodes pl = some ⟨.list tag, some gp, post⟩ ∧
    (outdentFirstCase d t pl gp).nodes gp = some ⟨.item, some ggp, gpcs⟩ ∧
    (∀ x, x ≠ t → x ≠ pl → x ≠ ggp → (outdentFirstCase d t pl gp).nodes x = d.nodes x) ∧
    (outdentFirstCase d t pl gp).nextKey = d.nextKey := by
  obtain ⟨r1, r2, r3, r4, r5⟩ := insertBefore_spec ht rfl hpl hgp rfl hggp rfl hgpgpre
    htpl htggp hplggp (Ne.symm htgp) (Ne.symm hplgp)
  have hd1pl : (insertBefore d gp t).nodes pl = some ⟨.list tag, some gp, post⟩ := by
    rw [r3]
    simp [eraseKey]
  have hne : nodeIsEmpty (insertBefore d gp t) pl = false := by
    rw [nodeIsEmpty, getChildren_eq hd1pl]
    cases post
    · exact absurd rfl hpost
    · rfl
  have he : outdentFirstCase d t pl gp = insertBefore d gp t := by
    simp only [outdentFirstCase, hne, Bool.false_eq_true, if_false]
  rw [he]
  refine ⟨r1, r2, hd1pl, ?_, ?_, r5⟩
  · rw [r4 gp (Ne.symm htgp) hgpggp (Ne.symm hplgp), hgp]
  · intro x h1 h2 h3
    rw [r4 x h1 h3 h2]

theorem outdentFirstCase_empty_spec {d : Doc} {t pl gp ggp : Nat} {tag gtag : String}
    {gpar : Option Nat} {tcs gpcs gpre gpost : List Nat}
    (ht : d.nodes t = some ⟨.item, some pl, tcs⟩)
    (hpl : d.nodes pl = some ⟨.list tag, some gp, [t]⟩)
    (hgp : d.nodes gp = some ⟨.item, some ggp, gpcs⟩)
    (hggp : d.nodes ggp = some ⟨.list gtag, gpar, gpre ++ gp :: gpost⟩)
    (htpl : t ≠ pl) (htgp : t ≠ gp) (htggp : t ≠ ggp)
    (hplgp : pl ≠ gp) (hplggp : pl ≠ ggp) (hgpggp : gp ≠ ggp)
    (hgpgpre : gp ∉ gpre) :
    (outdentFirstCase d t pl gp).nodes ggp =
      some ⟨.list gtag, gpar, gpre ++ t :: gpost⟩ ∧
    (outdentFirstCase d t pl gp).nodes t = some ⟨.item, some ggp, tcs⟩ ∧
    (outdentFirstCase d t pl gp).nodes pl = some ⟨.list tag, some gp, []⟩ ∧
    (outdentFirstCase d t pl gp).nodes gp = some ⟨.item, none, gpcs⟩ ∧
    (∀ x, x ≠ t → x ≠ pl → x ≠ gp → x ≠ ggp →
      (outdentFirstCase d t pl gp).nodes x = d.nodes x) ∧
    (outdentFirstCase d t pl gp).nextKey = d.nextKey := by
  obtain ⟨r1, r2, r3, r4, r5⟩ := insertBefore_spec ht rfl hpl hgp rfl hggp rfl hgpgpre
    htpl htggp hplggp (Ne.symm htgp) (Ne.symm hplgp)
  have hd1pl : (insertBefore d gp t).nodes pl = some ⟨.list tag, some gp, []⟩ := by
    rw [r3]
    simp [eraseKey]
  have hd1ggp : (insertBefore d gp t).nodes ggp =
      some ⟨.list gtag, gpar, (gpre ++ [t]) ++ gp :: gpost⟩ := by
    rw [r1]
    simp
  have hd1gp : (insertBefore d gp t).nodes gp = some ⟨.item, some ggp, gpcs⟩ := by
    rw [r4 gp (Ne.symm htgp) hgpggp (Ne.symm hplgp), hgp]
  have hempty : nodeIsEmpty (insertBefore d gp t) pl = true := by
    rw [nodeIsEmpty, getChildren_eq hd1pl]
    rfl
  have hgpa : gp ∉ gpre ++ [t] := by
    simp only [List.mem_append, List.mem_singleton, not_or]
    exact ⟨hgpgpre, Ne.symm htgp⟩
  have hrm : removeNode (insertBefore d gp t) gp =
      removeFromParent (insertBefore d gp t) gp := by
    refine removeNode_stop_spec hd1gp rfl hd1ggp hgpggp (Or.inl ?_)
    rw [eraseKey_append gpost hgpa]
    exact isEmpty_false_of_mem (x := t) (by simp)
  have he : outdentFirstCase d t pl gp =
      removeFromParent (insertBefore d gp t) gp := by
    simp only [outdentFirstCase, hempty, if_true, hrm]
  obtain ⟨s1, s2, s3, s4⟩ := removeFromParent_spec hd1gp rfl hd1ggp hgpggp
  rw [he]
  refine ⟨?_, ?_, ?_, s2, ?_, ?_⟩
  · rw [s1]
    rw [show eraseKey gp ((⟨.list gtag, gpar, (gpre ++ [t]) ++ gp :: gpost⟩ :
      NodeRec).children) = (gpre ++ [t]) ++ gpost from eraseKey_append gpost hgpa]
    simp
  · rw [s3 t htgp htggp, r2]
  · rw [s3 pl hplgp hplggp, hd1pl]
  · intro x h1 h2 h3 h4
    rw [s3 x h3 h4, r4 x h1 h4 h2]
  · rw [s4, r5]

theorem outdentOne_first_eq {d : Doc} {t pl gp ggp : Nat} {tag gtag : String}
    {gpar : Option Nat} {tcs gpcs gcs post : List Nat}
    (ht : d.nodes t = some ⟨.item, some pl, tcs⟩)
    (hpl : d.nodes pl = some ⟨.list tag, some gp, t :: post⟩)
    (hgp : d.nodes gp = some ⟨.item, some ggp, gpcs⟩)
    (hggp : d.nodes ggp = some ⟨.list gtag, gpar, gcs⟩)
    (hnn : isListNode d tcs.head? = false) :
    outdentOne d t = outdentFirstCase d t pl gp := by
  have h1 : isNestedListNode d (some t) = false := by
    rw [isNestedListNode_item_eq ht]
    exact hnn
  have h2 : getParent d t = some pl := by rw [getParent_eq ht]
  have h3 : getParent d pl = some gp := by rw [getParent_eq hpl]
  have h4 : getParent d gp = some ggp := by rw [getParent_eq hgp]
  have h5 : isListNode d (some ggp) = true := isListNode_eq_true hggp
  have h6 : isListItemNode d (some gp) = true := isListItemNode_eq_true hgp
  have h7 : isListNode d (some pl) = true := isListNode_eq_true hpl
  have h10 : getFirstChild d pl = some t := by
    rw [getFirstChild_eq hpl]
    rfl
  rw [outdentOne, h1]
  simp only [Bool.false_eq_true, if_false, h2, Option.some_bind, h3, h4, h5, h6, h7,
    Bool.and_self, if_true, h10, markChildrenDirty_eq]

/-- C7: for every valid-ancestry target that is the first child of its
parent List, outdent moves the target to sit immediately before the
grandparent ListItem in the great-grandparent List, and removes the
grandparent ListItem if and only if the parent List is empty after the
move. -/
theorem c7_outdent_first_child {d : Doc} {t pl gp ggp : Nat} {tag gtag : String}
    {gpar : Option Nat} {tcs gpcs gpre gpost post : List Nat}
    (ht : d.nodes t = some ⟨.item, some pl, tcs⟩)
    (hpl : d.nodes pl = some ⟨.list tag, some gp, t :: post⟩)
    (hgp : d.nodes gp = some ⟨.item, some ggp, gpcs⟩)
    (hggp : d.nodes ggp = some ⟨.list gtag, gpar, gpre ++ gp :: gpost⟩)
    (hnn : isListNode d tcs.head? = false)
    (htpl : t ≠ pl) (htgp : t ≠ gp) (htggp : t ≠ ggp)
    (hplgp : pl ≠ gp) (hplggp : pl ≠ ggp) (hgpggp : gp ≠ ggp)
    (hgpgpre : gp ∉ gpre) :
    (post ≠ [] →
      (handleOutdent d [t]).nodes ggp =
        some ⟨.list gtag, gpar, gpre ++ t :: gp :: gpost⟩ ∧
      (handleOutdent d [t]).nodes t = some ⟨.item, some ggp, tcs⟩ ∧
      (handleOutdent d [t]).nodes pl = some ⟨.list tag, some gp, post⟩ ∧
      (handleOutdent d [t]).nodes gp = some ⟨.item, some ggp, gpcs⟩) ∧
    (post = [] →
      (handleOutdent d [t]).nodes ggp = some ⟨.list gtag, gpar, gpre ++ t :: gpost⟩ ∧
      (handleOutdent d [t]).nodes t = some ⟨.item, some ggp, tcs⟩ ∧
      (handleOutdent d [t]).nodes pl = some ⟨.list tag, some gp, []⟩ ∧
      (handleOutdent d [t]).nodes gp = some ⟨.item, none, gpcs⟩) := by
  have he : handleOutdent d [t] = outdentFirstCase d t pl gp := by
    show outdentOne d t = _
    exact outdentOne_first_eq ht hpl hgp hggp hnn
  constructor
  · intro hpost
    obtain ⟨r1, r2, r3, r4, _, _⟩ := outdentFirstCase_keep_spec ht hpl hgp hggp hpost
      htpl htgp htggp hplgp hplggp hgpggp hgpgpre
    rw [he]
    exact ⟨r1, r2, r3, r4⟩
  · intro hpost
    subst hpost
    obtain ⟨r1, r2, r3, r4, _, _⟩ := outdentFirstCase_empty_spec ht hpl hgp hggp
      htpl htgp htggp hplgp hplggp hgpggp hgpgpre
    rw [he]
    exact ⟨r1, r2, r3, r4⟩

/-- Concrete document for the first-child boundary scenario:
great-grandparent List 0 holds grandparent ListItem 1 wrapping parent
List 2 with children [3, 4]; the target 3 is the first child. -/
def firstChildDoc : Doc :=
  docOfEntries
    [(0, ⟨.list "ul", none, [1]⟩),
     (1, ⟨.item, some 0, [2]⟩),
     (2, ⟨.list "ul", some 1, [3, 4]⟩),
     (3, ⟨.item, some 2, []⟩),
     (4, ⟨.item, some 2, []⟩)]
    5

theorem c7_outdent_first_child_witness :
    (handleOutdent firstChildDoc [3]).nodes 0 = some ⟨.list "ul", none, [3, 1]⟩ ∧
    (handleOutdent firstChildDoc [3]).nodes 3 = some ⟨.item, some 0, []⟩ ∧
    (handleOutdent firstChildDoc [3]).nodes 2 = some ⟨.list "ul", some 1, [4]⟩ ∧
    (handleOutdent firstChildDoc [3]).nodes 1 = some ⟨.item, some 0, [2]⟩ := by
  have h := @c7_outdent_first_child firstChildDoc 3 2 1 0 "ul" "ul" none [] [2] [] [] [4]
    rfl rfl rfl rfl (by decide) (by decide) (by decide) (by decide) (by decide)
    (by decide) (by decide) (by decide)
  exact h.1 (by decide)

/-- C10: for every valid-ancestry outdent target that is the sole child of
its parent List, the first-child path applies: the target is inserted
immediately before the grandparent ListItem in the great-grandparent List
and the grandparent ListItem is removed, its emptied List going with it. -/
theorem c10_outdent_sole_child {d : Doc} {t pl gp ggp : Nat} {tag gtag : String}
    {gpar : Option Nat} {tcs gpcs gpre gpost : List Nat}
    (ht : d.nodes t = some ⟨.item, some pl, tcs⟩)
    (hpl : d.nodes pl = some ⟨.list tag, some gp, [t]⟩)
    (hgp : d.nodes gp = some ⟨.item, some ggp, gpcs⟩)
    (hggp : d.nodes ggp = some ⟨.list gtag, gpar, gpre ++ gp :: gpost⟩)
    (hnn : isListNode d tcs.head? = false)
    (htpl : t ≠ pl) (htgp : t ≠ gp) (htggp : t ≠ ggp)
    (hplgp : pl ≠ gp) (hplggp : pl ≠ ggp) (hgpggp : gp ≠ ggp)
    (hgpgpre : gp ∉ gpre) :
    (handleOutdent d [t]).nodes ggp = some ⟨.list gtag, gpar, gpre ++ t :: gpost⟩ ∧
    (handleOutdent d [t]).nodes t = some ⟨.item, some ggp, tcs⟩ ∧
    (handleOutdent d [t]).nodes gp = some ⟨.item, none, gpcs⟩ ∧
    (handleOutdent d [t]).nodes pl = some ⟨.list tag, some gp, []⟩ := by
  have he : handleOutdent d [t] = outdentFirstCase d t pl gp := by
    show outdentOne d t = _
    exact outdentOne_first_eq ht hpl hgp hggp hnn
  obtain ⟨r1, r2, r3, r4, _, _⟩ := outdentFirstCase_empty_spec ht hpl hgp hggp
    htpl htgp htggp hplgp hplggp hgpggp hgpgpre
  rw [he]
  exact ⟨r1, r2, r4, r3⟩

/-- Concrete document for the sole-child scenario: great-grandparent List 0
holds grandparent ListItem 1 wrapping parent List 2 whose only child is the
target 3. -/
def soleChildDoc : Doc :=
  docOfEntries
    [(0, ⟨.list "ul", none, [1]⟩),
     (1, ⟨.item, some 0, [2]⟩),
     (2, ⟨.list "ul", some 1, [3]⟩),
     (3, ⟨.item, some 2, []⟩)]
    4

theorem c10_outdent_sole_child_witness :
    (handleOutdent soleChildDoc [3]).nodes 0 = some ⟨.list "ul", none, [3]⟩ ∧
    (handleOutdent soleChildDoc [3]).nodes 3 = some ⟨.item, some 0, []⟩ ∧
    (handleOutdent soleChildDoc [3]).nodes 1 = some ⟨.item, none, [2]⟩ ∧
    (handleOutdent soleChildDoc [3]).nodes 2 = some ⟨.list "ul", some 1, []⟩ :=
  @c10_outdent_sole_child soleChildDoc 3 2 1 0 "ul" "ul" none [] [2] [] []
    rfl rfl rfl rfl (by decide) (by decide) (by decide) (by decide) (by decide)
    (by decide) (by decide) (by decide)

/-- C6 amended: a structurally unexpected tree degrades to a silent no-op
for that target and the batch continues — for outdent, whenever the
ancestry chain fails the List→ListItem→List check; for indent, whenever the
parent is not a List and additionally neither adjacent sibling is a
nested-list wrapper (a nested-wrapper sibling still triggers the merge
branches, which never consult the parent's kind).  Both transforms are
total functions, so no error is raised. -/
theorem c6_unexpected_tree_noop :
    (∀ (d : Doc) (t : Nat) (rest : List Nat),
      (isListNode d (((getParent d t).bind (getParent d)).bind (getParent d)) &&
        isListItemNode d ((getParent d t).bind (getParent d)) &&
        isListNode d (getParent d t)) = false →
      handleOutdent d (t :: rest) = handleOutdent d rest) ∧
    (∀ (d : Doc) (t : Nat) (rest : List Nat),
      isNestedListNode d (getNextSibling d t) = false →
      isNestedListNode d (getPreviousSibling d t) = false →
      isListNode d (getParent d t) = false →
      handleIndent d (t :: rest) = handleIndent d rest) := by
  constructor
  · intro d t rest hbad
    show handleOutdent (outdentOne d t) rest = handleOutdent d rest
    have hone : outdentOne d t = d := by
      rw [outdentOne]
      by_cases hn : isNestedListNode d (some t) = true
      · rw [if_pos hn]
      · rw [if_neg hn]
        simp only [hbad, Bool.false_eq_true, if_false]
    rw [hone]
  · intro d t rest hnext hprev hpar
    show handleIndent (indentOne d t) rest = handleIndent d rest
    have hone : indentOne d t = d := by
      rw [indentOne]
      by_cases hn : isNestedListNode d (some t) = true
      · rw [if_pos hn]
      · rw [if_neg hn]
        simp only [hnext, hprev, hpar, Bool.false_and, Bool.false_eq_true, if_false,
          indentCreateCase]
    rw [hone]

/-- Concrete malformed document for the indent no-op witness: parent 0 is a
ListItem holding the plain items 1 and 2 (no nested-list wrapper nearby). -/
def badParentPlainDoc : Doc :=
  docOfEntries
    [(0, ⟨.item, none, [1, 2]⟩),
     (1, ⟨.item, some 0, []⟩),
     (2, ⟨.item, some 0, [5]⟩),
     (5, ⟨.content, some 2, []⟩)]
    6

theorem c6_unexpected_tree_noop_witness :
    handleOutdent badParentPlainDoc [2] = badParentPlainDoc ∧
    handleIndent badParentPlainDoc [2] = badParentPlainDoc := by
  constructor
  · exact c6_unexpected_tree_noop.1 badParentPlainDoc 2 [] (by decide)
  · exact c6_unexpected_tree_noop.2 badParentPlainDoc 2 [] (by decide) (by decide)
      (by decide)

theorem maybeIndentOrOutdent_none_snd (d : Doc) (dir : Direction) :
    (maybeIndentOrOutdent d none dir).2 = false := rfl

theorem maybeIndentOrOutdent_some_snd (d : Doc) (s : Selection) (dir : Direction) :
    (maybeIndentOrOutdent d (some s) dir).2 = true ↔ resolveTargets d s ≠ [] := by
  simp only [maybeIndentOrOutdent]
  by_cases h : (resolveTargets d s).length > 0
  · have hne : resolveTargets d s ≠ [] := by
      intro hnil
      rw [hnil] at h
      simp at h
    cases dir <;> simp [h, hne]
  · have hnil : resolveTargets d s = [] := by
      cases hc : resolveTargets d s
      · rfl
      · rw [hc] at h
        simp at h
    simp [h, hnil]

/-- C9: the command listener reports "handled" exactly when the command
kind is one of the two handled kinds and the Selection Resolver produces a
non-empty target list; in particular it reports false for a null selection,
for a selection yielding no ListItems, and for every other command kind. -/
theorem c9_command_handled_iff (d : Doc) (sel : Option Selection) (ty : String) :
    (commandListener d sel ty).2 = true ↔
      ((ty = "indentContent" ∨ ty = "outdentContent") ∧ selectionTargets d sel ≠ []) := by
  rcases sel with _ | s
  · simp only [commandListener, selectionTargets, maybeIndentOrOutdent]
    split_ifs <;> simp_all
  · simp only [commandListener, selectionTargets]
    by_cases hty1 : ty = "indentContent"
    · subst hty1
      simp only [if_pos rfl]
      by_cases h : (maybeIndentOrOutdent d (some s) Direction.indent).2 = true
      · simp [h, (maybeIndentOrOutdent_some_snd d s Direction.indent).mp h]
      · have htargets : ¬ (resolveTargets d s ≠ []) := fun hne =>
          absurd ((maybeIndentOrOutdent_some_snd d s Direction.indent).mpr hne)
            (by simp [h])
        simp [h, htargets]
    · by_cases hty2 : ty = "outdentContent"
      · subst hty2
        simp only [if_neg hty1, if_pos rfl]
        by_cases h : (maybeIndentOrOutdent d (some s) Direction.outdent).2 = true
        · simp [h, (maybeIndentOrOutdent_some_snd d s Direction.outdent).mp h, hty1]
        · have htargets : ¬ (resolveTargets d s ≠ []) := fun hne =>
            absurd ((maybeIndentOrOutdent_some_snd d s Direction.outdent).mpr hne)
              (by simp [h])
          simp [h, htargets]
      · simp [hty1, hty2]

theorem mem_addUniqueKey {acc : List Nat} {x k : Nat} :
    k ∈ addUniqueKey acc x ↔ k ∈ acc ∨ k = x := by
  rw [addUniqueKey]
  by_cases h : x ∈ acc
  · rw [if_pos h]
    constructor
    · exact Or.inl
    · rintro (hk | rfl)
      · exact hk
      · exact h
  · rw [if_neg h]
    simp

theorem addUniqueKey_nodup {acc : List Nat} (x : Nat) (h : acc.Nodup) :
    (addUniqueKey acc x).Nodup := by
  rw [addUniqueKey]
  by_cases hx : x ∈ acc
  · rw [if_pos hx]
    exact h
  · rw [if_neg hx]
    simp [List.nodup_append, h, hx]

theorem uniqueFold_nodup (d : Doc) :
    ∀ (ns acc : List Nat), acc.Nodup →
    (ns.foldl (fun acc node =>
      if isListItemNode d (some node) then addUniqueKey acc node else acc) acc).Nodup := by
  intro ns
  induction ns with
  | nil => intro acc h; exact h
  | cons x xs ih =>
    intro acc h
    simp only [List.foldl_cons]
    by_cases hx : isListItemNode d (some x) = true
    · rw [if_pos hx]
      exact ih _ (addUniqueKey_nodup x h)
    · rw [if_neg hx]
      exact ih _ h

theorem uniqueFold_mem (d : Doc) :
    ∀ (ns acc : List Nat) (k : Nat),
    (k ∈ acc ∨ (k ∈ ns ∧ isListItemNode d (some k) = true)) →
    k ∈ ns.foldl (fun acc node =>
      if isListItemNode d (some node) then addUniqueKey acc node else acc) acc := by
  intro ns
  induction ns with
  | nil =>
    intro acc k h
    rcases h with h | ⟨h, _⟩
    · exact h
    · exact absurd h (List.not_mem_nil k)
  | cons x xs ih =>
    intro acc k h
    simp only [List.foldl_cons]
    rcases h with h | ⟨hmem, hitem⟩
    · refine ih _ k (Or.inl ?_)
      by_cases hx : isListItemNode d (some x) = true
      · rw [if_pos hx]
        exact mem_addUniqueKey.mpr (Or.inl h)
      · rw [if_neg hx]
        exact h
    · rcases List.mem_cons.mp hmem with rfl | hxs
      · refine ih _ k (Or.inl ?_)
        rw [if_pos hitem]
        exact mem_addUniqueKey.mpr (Or.inr rfl)
      · exact ih _ k (Or.inr ⟨hxs, hitem⟩)

theorem getUniqueListItemNodes_nodup (d : Doc) (ns : List Nat) :
    (getUniqueListItemNodes d ns).Nodup :=
  uniqueFold_nodup d ns [] List.nodup_nil

theorem mem_getUniqueListItemNodes {d : Doc} {ns : List Nat} {k : Nat}
    (h1 : k ∈ ns) (h2 : isListItemNode d (some k) = true) :
    k ∈ getUniqueListItemNodes d ns :=
  uniqueFold_mem d ns [] k (Or.inr ⟨h1, h2⟩)

/-- C2 amended: when the selection's multi-node set references the same
ListItem node twice directly, the Selection Resolver returns it exactly
once (identity-based dedup, first-occurrence order).  When the two
references are descendant nodes rather than the ListItem itself, a
multi-node selection filters them out with the ListItem predicate — the
ancestor-walking locator is used only for single-candidate selections — so
the ListItem is not returned at all (see the counterexample). -/
theorem c2_dedup_direct_reference {d : Doc} {ns : List Nat} {a k : Nat}
    (hlen : 2 ≤ ns.length) (hmem : k ∈ ns)
    (hitem : isListItemNode d (some k) = true) :
    (resolveTargets d ⟨ns, a⟩).count k = 1 := by
  have hne0 : ¬(ns.length = 0) := by omega
  have hne1 : ¬(ns.length = 1) := by omega
  have he : resolveTargets d ⟨ns, a⟩ = getUniqueListItemNodes d ns := by
    simp only [resolveTargets, hne0, if_false, hne1]
  rw [he]
  exact List.count_eq_one_of_mem (getUniqueListItemNodes_nodup d ns)
    (mem_getUniqueListItemNodes hmem hitem)

theorem c2_dedup_direct_reference_witness :
    (resolveTargets dedupDoc ⟨[1, 1], 2⟩).count 1 = 1 :=
  c2_dedup_direct_reference (by decide) (by decide) (by decide)

theorem getNextSibling_eq {d : Doc} {t P : Nat} {tr Pr : NodeRec} {a b : List Nat}
    (ht : d.nodes t = some tr) (htp : tr.parent = some P)
    (hP : d.nodes P = some Pr) (hpc : Pr.children = a ++ t :: b) (hta : t ∉ a) :
    getNextSibling d t = b.head? := by
  have h1 : getParent d t = some P := by rw [getParent_eq ht, htp]
  simp only [getNextSibling, h1, getChildren_eq hP, hpc, dropUntil_append b hta,
    List.drop_succ_cons, List.drop_zero]

theorem getPreviousSibling_eq {d : Doc} {t P : Nat} {tr Pr : NodeRec} {a b : List Nat}
    (ht : d.nodes t = some tr) (htp : tr.parent = some P)
    (hP : d.nodes P = some Pr) (hpc : Pr.children = a ++ t :: b) (hta : t ∉ a) :
    getPreviousSibling d t = a.getLast? := by
  have h1 : getParent d t = some P := by rw [getParent_eq ht, htp]
  simp only [getPreviousSibling, h1, getChildren_eq hP, hpc, takeUntil_append b hta]

theorem indentFinish_eq (d5 : Doc) (parent : Option Nat) :
    (if isListNode d5 parent then
      match parent with
      | some p => markChildrenDirty d5 p
      | none => d5
    else d5) = d5 := by
  by_cases h : isListNode d5 parent = true
  · rw [if_pos h]
    cases parent
    · rfl
    · exact markChildrenDirty_eq _ _
  · rw [if_neg h]

theorem indentNextCase_spec {d : Doc} {t P C il c0 : Nat} {ptag iltag : String}
    {ppar : Option Nat} {c0r : NodeRec} {tcs crest cs a b : List Nat}
    (ht : d.nodes t = some ⟨.item, some P, tcs⟩)
    (hP : d.nodes P = some ⟨.list ptag, ppar, a ++ t :: C :: b⟩)
    (hC : d.nodes C = some ⟨.item, some P, il :: crest⟩)
    (hil : d.nodes il = some ⟨.list iltag, some C, c0 :: cs⟩)
    (hc0 : d.nodes c0 = some c0r) (hc0p : c0r.parent = some il)
    (hta : t ∉ a)
    (htP : t ≠ P) (htil : t ≠ il) (hPil : P ≠ il)
    (hc0t : c0 ≠ t) (hc0P : c0 ≠ P)
    (hCt : C ≠ t) (hCil : C ≠ il) (hCP : C ≠ P) :
    (indentNextCase d t (some C)).nodes il =
      some ⟨.list iltag, some C, t :: c0 :: cs⟩ ∧
    (indentNextCase d t (some C)).nodes t = some ⟨.item, some il, tcs⟩ ∧
    (indentNextCase d t (some C)).nodes P = some ⟨.list ptag, ppar, a ++ C :: b⟩ ∧
    (indentNextCase d t (some C)).nodes C = some ⟨.item, some P, il :: crest⟩ ∧
    (∀ x, x ≠ t → x ≠ il → x ≠ P → (indentNextCase d t (some C)).nodes x = d.nodes x) ∧
    (indentNextCase d t (some C)).nextKey = d.nextKey := by
  have he : indentNextCase d t (some C) = insertBefore d c0 t := by
    simp only [indentNextCase, getFirstChild_eq hC, getFirstChild_eq hil,
      List.head?_cons, isListNode_eq_true hil, if_true, markChildrenDirty_eq]
  obtain ⟨r1, r2, r3, r4, r5⟩ := insertBefore_spec ht rfl hP hc0 hc0p hil
    (show (⟨.list iltag, some C, c0 :: cs⟩ : NodeRec).children = [] ++ c0 :: cs from rfl)
    (List.not_mem_nil c0) htP htil hPil hc0t hc0P
  rw [he]
  refine ⟨r1, r2, ?_, ?_, ?_, r5⟩
  · rw [r3]
    rw [show eraseKey t ((⟨.list ptag, ppar, a ++ t :: C :: b⟩ : NodeRec).children)
      = a ++ C :: b from eraseKey_append (C :: b) hta]
  · rw [r4 C hCt hCil hCP, hC]
  · intro x h1 h2 h3
    rw [r4 x h1 h2 h3]

theorem indentOne_next_eq {d : Doc} {t P C il : Nat} {ptag iltag : String}
    {ppar : Option Nat} {tcs crest ilcs a b : List Nat}
    (ht : d.nodes t = some ⟨.item, some P, tcs⟩)
    (hP : d.nodes P = some ⟨.list ptag, ppar, a ++ t :: C :: b⟩)
    (hC : d.nodes C = some ⟨.item, some P, il :: crest⟩)
    (hil : d.nodes il = some ⟨.list iltag, some C, ilcs⟩)
    (hnn : isListNode d tcs.head? = false)
    (hprevnn : isNestedListNode d a.getLast? = false)
    (hta : t ∉ a) :
    indentOne d t = indentNextCase d t (some C) := by
  have hn : isNestedListNode d (some t) = false := by
    rw [isNestedListNode_item_eq ht]
    exact hnn
  have hnext : getNextSibling d t = some C :=
    getNextSibling_eq ht rfl hP rfl hta
  have hprev : getPreviousSibling d t = a.getLast? :=
    getPreviousSibling_eq ht rfl hP rfl hta
  have hCw : isNestedListNode d (some C) = true := by
    rw [isNestedListNode_item_eq hC]
    exact isListNode_eq_true hil
  rw [indentOne]
  simp only [hn, Bool.false_eq_true, if_false, hnext, hprev, hCw, hprevnn,
    Bool.true_and, Bool.and_false, if_true]
  exact indentFinish_eq _ _

/-- C8 amended: for every indent target that is not itself a nested-list
wrapper, whose next sibling is a nested-list wrapper whose inner List is
nonempty, and whose previous sibling is not a nested-list wrapper, the
target is inserted as the new first child of the next sibling's inner List,
placed before that inner List's previous first child.  (When the inner List
is empty the insertion point does not exist and the target is left in
place; see the counterexample.) -/
theorem c8_indent_next_wrapper {d : Doc} {t P C il c0 : Nat} {ptag iltag : String}
    {ppar : Option Nat} {c0r : NodeRec} {tcs crest cs a b : List Nat}
    (ht : d.nodes t = some ⟨.item, some P, tcs⟩)
    (hP : d.nodes P = some ⟨.list ptag, ppar, a ++ t :: C :: b⟩)
    (hC : d.nodes C = some ⟨.item, some P, il :: crest⟩)
    (hil : d.nodes il = some ⟨.list iltag, some C, c0 :: cs⟩)
    (hc0 : d.nodes c0 = some c0r) (hc0p : c0r.parent = some il)
    (hnn : isListNode d tcs.head? = false)
    (hprevnn : isNestedListNode d a.getLast? = false)
    (hta : t ∉ a)
    (htP : t ≠ P) (htil : t ≠ il) (hPil : P ≠ il)
    (hc0t : c0 ≠ t) (hc0P : c0 ≠ P)
    (hCt : C ≠ t) (hCil : C ≠ il) (hCP : C ≠ P) :
    (handleIndent d [t]).nodes il = some ⟨.list iltag, some C, t :: c0 :: cs⟩ ∧
    (handleIndent d [t]).nodes t = some ⟨.item, some il, tcs⟩ ∧
    (handleIndent d [t]).nodes P = some ⟨.list ptag, ppar, a ++ C :: b⟩ ∧
    (handleIndent d [t]).nodes C = some ⟨.item, some P, il :: crest⟩ := by
  have he : handleIndent d [t] = indentNextCase d t (some C) := by
    show indentOne d t = _
    exact indentOne_next_eq ht hP hC hil hnn hprevnn hta
  obtain ⟨r1, r2, r3, r4, _, _⟩ := indentNextCase_spec ht hP hC hil hc0 hc0p hta
    htP htil hPil hc0t hc0P hCt hCil hCP
  rw [he]
  exact ⟨r1, r2, r3, r4⟩

/-- Concrete document for the indent-next-wrapper scenario: outer List 0
holds the target 1 and a nested-list wrapper 2 whose inner List 3 holds the
item 4. -/
def nextWrapperDoc : Doc :=
  docOfEntries
    [(0, ⟨.list "ul", none, [1, 2]⟩),
     (1, ⟨.item, some 0, []⟩),
     (2, ⟨.item, some 0, [3]⟩),
     (3, ⟨.list "ul", some 2, [4]⟩),
     (4, ⟨.item, some 3, []⟩)]
    5

theorem c8_indent_next_wrapper_witness :
    (handleIndent nextWrapperDoc [1]).nodes 3 = some ⟨.list "ul", some 2, [1, 4]⟩ ∧
    (handleIndent nextWrapperDoc [1]).nodes 1 = some ⟨.item, some 3, []⟩ ∧
    (handleIndent nextWrapperDoc [1]).nodes 0 = some ⟨.list "ul", none, [2]⟩ ∧
    (handleIndent nextWrapperDoc [1]).nodes 2 = some ⟨.item, some 0, [3]⟩ :=
  @c8_indent_next_wrapper nextWrapperDoc 1 0 2 3 4 "ul" "ul" none ⟨.item, some 3, []⟩
    [] [] [] [] []
    rfl rfl rfl rfl rfl rfl (by decide) (by decide) (by decide) (by decide)
    (by decide) (by decide) (by decide) (by decide) (by decide) (by decide)
    (by decide)

theorem indentPrevCase_spec {d : Doc} {t P A il : Nat} {ptag iltag : String}
    {ppar : Option Nat} {tcs arest ics a b : List Nat}
    (ht : d.nodes t = some ⟨.item, some P, tcs⟩)
    (hP : d.nodes P = some ⟨.list ptag, ppar, a ++ A :: t :: b⟩)
    (hA : d.nodes A = some ⟨.item, some P, il :: arest⟩)
    (hil : d.nodes il = some ⟨.list iltag, some A, ics⟩)
    (hta : t ∉ a) (htA : t ≠ A)
    (htP : t ≠ P) (htil : t ≠ il) (hPil : P ≠ il)
    (hAil : A ≠ il) (hAP : A ≠ P) :
    (indentPrevCase d t (some A)).nodes il = some ⟨.list iltag, some A, ics ++ [t]⟩ ∧
    (indentPrevCase d t (some A)).nodes t = some ⟨.item, some il, tcs⟩ ∧
    (indentPrevCase d t (some A)).nodes P = some ⟨.list ptag, ppar, a ++ A :: b⟩ ∧
    (indentPrevCase d t (some A)).nodes A = some ⟨.item, some P, il :: arest⟩ ∧
    (∀ x, x ≠ t → x ≠ il → x ≠ P → (indentPrevCase d t (some A)).nodes x = d.nodes x) ∧
    (indentPrevCase d t (some A)).nextKey = d.nextKey := by
  have he : indentPrevCase d t (some A) = appendChild d il t := by
    simp only [indentPrevCase, getFirstChild_eq hA, List.head?_cons,
      isListNode_eq_true hil, if_true, markChildrenDirty_eq]
  obtain ⟨r1, r2, r3, r4, r5⟩ := appendChild_spec ht rfl hP hil htP htil hPil
  have htaA : t ∉ a ++ [A] := by
    simp only [List.mem_append, List.mem_singleton, not_or]
    exact ⟨hta, htA⟩
  rw [he]
  refine ⟨r2, r3, ?_, ?_, ?_, r5⟩
  · rw [r1]
    rw [show eraseKey t ((⟨.list ptag, ppar, a ++ A :: t :: b⟩ : NodeRec).children)
      = (a ++ [A]) ++ b by
        rw [show (a ++ A :: t :: b : List Nat) = (a ++ [A]) ++ t :: b by simp]
        exact eraseKey_append b htaA]
    simp
  · rw [r4 A (Ne.symm htA) hAil hAP, hA]
  · intro x h1 h2 h3
    rw [r4 x h1 h2 h3]

theorem indentOne_prev_eq {d : Doc} {t P A il : Nat} {ptag iltag : String}
    {ppar : Option Nat} {tcs arest ilcs a b : List Nat}
    (ht : d.nodes t = some ⟨.item, some P, tcs⟩)
    (hP : d.nodes P = some ⟨.list ptag, ppar, a ++ A :: t :: b⟩)
    (hA : d.nodes A = some ⟨.item, some P, il :: arest⟩)
    (hil : d.nodes il = some ⟨.list iltag, some A, ilcs⟩)
    (hnn : isListNode d tcs.head? = false)
    (hnextnn : isNestedListNode d b.head? = false)
    (hta : t ∉ a) (htA : t ≠ A) :
    indentOne d t = indentPrevCase d t (some A) := by
  have hn : isNestedListNode d (some t) = false := by
    rw [isNestedListNode_item_eq ht]
    exact hnn
  have htaA : t ∉ a ++ [A] := by
    simp only [List.mem_append, List.mem_singleton, not_or]
    exact ⟨hta, htA⟩
  have hpc : (⟨.list ptag, ppar, a ++ A :: t :: b⟩ : NodeRec).children
      = (a ++ [A]) ++ t :: b := by simp
  have hnext : getNextSibling d t = b.head? :=
    getNextSibling_eq ht rfl hP hpc htaA
  have hprev : getPreviousSibling d t = some A := by
    rw [getPreviousSibling_eq ht rfl hP hpc htaA,
      List.getLast?_append_of_ne_nil a (show ([A] : List Nat) ≠ [] by simp)]
    rfl
  have hAw : isNestedListNode d (some A) = true := by
    rw [isNestedListNode_item_eq hA]
    exact isListNode_eq_true hil
  rw [indentOne]
  simp only [hn, Bool.false_eq_true, if_false, hnext, hprev, hAw, hnextnn,
    Bool.false_and, Bool.true_and, if_true, if_false]
  exact indentFinish_eq _ _

theorem indentCreateCase_spec {d : Doc} {t P : Nat} {ptag : String} {ppar : Option Nat}
    {tcs a b : List Nat}
    (hfresh : ∀ k r, d.nodes k = some r → k < d.nextKey)
    (ht : d.nodes t = some ⟨.item, some P, tcs⟩)
    (hP : d.nodes P = some ⟨.list ptag, ppar, a ++ t :: b⟩)
    (hamem : ∀ s ∈ a, ∃ r, d.nodes s = some r ∧ r.parent = some P)
    (hbmem : ∀ s ∈ b, ∃ r, d.nodes s = some r ∧ r.parent = some P)
    (hta : t ∉ a) (htb : t ∉ b) (hand : a.Nodup)
    (htP : t ≠ P) (hPa : P ∉ a) (hPb : P ∉ b) :
    (indentCreateCase d t (some P) a.getLast? b.head?).nodes P =
      some ⟨.list ptag, ppar, a ++ d.nextKey :: b⟩ ∧
    (indentCreateCase d t (some P) a.getLast? b.head?).nodes d.nextKey =
      some ⟨.item, some P, [d.nextKey + 1]⟩ ∧
    (indentCreateCase d t (some P) a.getLast? b.head?).nodes (d.nextKey + 1) =
      some ⟨.list ptag, some d.nextKey, [t]⟩ ∧
    (indentCreateCase d t (some P) a.getLast? b.head?).nodes t =
      some ⟨.item, some (d.nextKey + 1), tcs⟩ ∧
    (∀ x, x ≠ t → x ≠ P → x ≠ d.nextKey → x ≠ d.nextKey + 1 →
      (indentCreateCase d t (some P) a.getLast? b.head?).nodes x = d.nodes x) ∧
    (indentCreateCase d t (some P) a.getLast? b.head?).nextKey = d.nextKey + 2 := by
  have hbt : t < d.nextKey := hfresh t _ ht
  have hbP : P < d.nextKey := hfresh P _ hP
  have hba : ∀ s ∈ a, s < d.nextKey := by
    intro s hs
    obtain ⟨r, hr, _⟩ := hamem s hs
    exact hfresh s r hr
  have hbb : ∀ s ∈ b, s < d.nextKey := by
    intro s hs
    obtain ⟨r, hr, _⟩ := hbmem s hs
    exact hfresh s r hr
  have hgP : (createListItemNode d).2.nodes P = some ⟨.list ptag, ppar, a ++ t :: b⟩ := by
    show setN d.nodes d.nextKey ⟨.item, none, []⟩ P = _
    rw [setN_ne _ _ _ (by omega), hP]
  have hgt : getTag (createListItemNode d).2 P = ptag := getTag_eq hgP
  let dB : Doc :=
    (createListNode (getTag (createListItemNode d).2 P) (createListItemNode d).2).2
  have hB_i : dB.nodes d.nextKey = some ⟨.item, none, []⟩ := by
    show setN (setN d.nodes d.nextKey ⟨.item, none, []⟩) (d.nextKey + 1)
      ⟨.list (getTag (createListItemNode d).2 P), none, []⟩ d.nextKey = _
    rw [setN_ne _ _ _ (by omega), setN_self]
  have hB_k : dB.nodes (d.nextKey + 1) =
      some ⟨.list (getTag (createListItemNode d).2 P), none, []⟩ := by
    show setN (setN d.nodes d.nextKey ⟨.item, none, []⟩) (d.nextKey + 1)
      ⟨.list (getTag (createListItemNode d).2 P), none, []⟩ (d.nextKey + 1) = _
    rw [setN_self]
  have hB_f : ∀ x, x ≠ d.nextKey → x ≠ d.nextKey + 1 → dB.nodes x = d.nodes x := by
    intro x h1 h2
    show setN (setN d.nodes d.nextKey ⟨.item, none, []⟩) (d.nextKey + 1)
      ⟨.list (getTag (createListItemNode d).2 P), none, []⟩ x = _
    rw [setN_ne _ _ _ h2, setN_ne _ _ _ h1]
  let dC : Doc := appendChild dB d.nextKey (d.nextKey + 1)
  obtain ⟨c1, c2, c3, c4⟩ := appendChild_noParent_spec hB_k rfl hB_i (by omega)
  have hC_f : ∀ x, x ≠ d.nextKey → x ≠ d.nextKey + 1 → dC.nodes x = d.nodes x := by
    intro x h1 h2
    rw [show dC.nodes x = dB.nodes x from c3 x h2 h1, hB_f x h1 h2]
  have hC_t : dC.nodes t = some ⟨.item, some P, tcs⟩ := by
    rw [hC_f t (by omega) (by omega), ht]
  have hC_P : dC.nodes P = some ⟨.list ptag, ppar, a ++ t :: b⟩ := by
    rw [hC_f P (by omega) (by omega), hP]
  let dD : Doc := appendChild dC (d.nextKey + 1) t
  obtain ⟨e1, e2, e3, e4, e5⟩ := appendChild_spec hC_t rfl hC_P c2 htP (by omega) (by omega)
  have hD_P : dD.nodes P = some ⟨.list ptag, ppar, a ++ b⟩ := by
    rw [e1]
    rw [show eraseKey t ((⟨.list ptag, ppar, a ++ t :: b⟩ : NodeRec).children)
      = a ++ b from eraseKey_append b hta]
  have hD_k : dD.nodes (d.nextKey + 1) =
      some ⟨.list (getTag (createListItemNode d).2 P), some d.nextKey, [t]⟩ := e2
  have hD_t : dD.nodes t = some ⟨.item, some (d.nextKey + 1), tcs⟩ := e3
  have hD_i : dD.nodes d.nextKey = some ⟨.item, none, [d.nextKey + 1]⟩ := by
    rw [e4 _ (by omega) (by omega) (by omega)]
    exact c1
  have hD_f : ∀ x, x ≠ t → x ≠ P → x ≠ d.nextKey → x ≠ d.nextKey + 1 →
      dD.nodes x = d.nodes x := by
    intro x h1 h2 h3 h4
    rw [e4 x h1 h4 h2, hC_f x h3 h4]
  have hD_nk : dD.nextKey = d.nextKey + 2 := by
    rw [e5, c4]
    rfl
  rcases List.eq_nil_or_concat' a with rfl | ⟨aa, A, rfl⟩
  · cases b with
    | nil =>
      have he : indentCreateCase d t (some P) ([] : List Nat).getLast?
          ([] : List Nat).head? = appendChild dD P d.nextKey := by
        simp only [indentCreateCase, isListNode_eq_true hP, if_true, List.getLast?_nil,
          List.head?_nil]
        rfl
      obtain ⟨f1, f2, f3, f4⟩ := appendChild_noParent_spec hD_i rfl hD_P (by omega)
      rw [he]
      refine ⟨f1, ?_, ?_, ?_, ?_, ?_⟩
      · rw [f2]
      · rw [← hgt, f3 _ (by omega) (by omega), hD_k]
      · rw [f3 t (by omega) htP, hD_t]
      · intro x h1 h2 h3 h4
        rw [f3 x h3 h2, hD_f x h1 h2 h3 h4]
      · rw [f4, hD_nk]
    | cons N bb =>
      have he : indentCreateCase d t (some P) ([] : List Nat).getLast?
          (N :: bb).head? = insertBefore dD N d.nextKey := by
        simp only [indentCreateCase, isListNode_eq_true hP, if_true, List.getLast?_nil,
          List.head?_cons]
        rfl
      obtain ⟨rN, hrN, hrNp⟩ := hbmem N (List.mem_cons_self N bb)
      have hbN : N < d.nextKey := hfresh N rN hrN
      have hD_N : dD.nodes N = some rN := by
        rw [hD_f N (fun h => htb (h ▸ List.mem_cons_self N bb))
          (fun h => hPb (h ▸ List.mem_cons_self N bb)) (by omega) (by omega), hrN]
      obtain ⟨f1, f2, f3, f4⟩ := insertBefore_noParent_spec hD_i rfl hD_N hrNp hD_P
        (show (⟨.list ptag, ppar, ([] : List Nat) ++ N :: bb⟩ : NodeRec).children
          = [] ++ N :: bb from rfl)
        (List.not_mem_nil N) (by omega)
      rw [he]
      refine ⟨f1, ?_, ?_, ?_, ?_, ?_⟩
      · rw [f2]
      · rw [← hgt, f3 _ (by omega) (by omega), hD_k]
      · rw [f3 t (by omega) htP, hD_t]
      · intro x h1 h2 h3 h4
        rw [f3 x h3 h2, hD_f x h1 h2 h3 h4]
      · rw [f4, hD_nk]
  · have hal : (aa ++ [A]).getLast? = some A := by
      rw [List.getLast?_append_of_ne_nil aa (show ([A] : List Nat) ≠ [] by simp)]
      rfl
    have he : indentCreateCase d t (some P) (aa ++ [A]).getLast? b.head?
        = insertAfter dD A d.nextKey := by
      simp only [indentCreateCase, isListNode_eq_true hP, if_true, hal]
      rfl
    obtain ⟨rA, hrA, hrAp⟩ := hamem A (by simp)
    have hbA : A < d.nextKey := hfresh A rA hrA
    have hAa : A ∉ aa := by
      intro hmem
      rw [List.nodup_append] at hand
      exact hand.2.2 hmem (by simp)
    have hD_A : dD.nodes A = some rA := by
      rw [hD_f A (fun h => hta (h ▸ (by simp : A ∈ aa ++ [A])))
        (fun h => hPa (h ▸ (by simp : A ∈ aa ++ [A]))) (by omega) (by omega), hrA]
    obtain ⟨f1, f2, f3, f4⟩ := insertAfter_noParent_spec hD_i rfl hD_A hrAp hD_P
      (show (⟨.list ptag, ppar, (aa ++ [A]) ++ b⟩ : NodeRec).children
        = aa ++ A :: b by simp)
      hAa (by omega)
    rw [he]
    refine ⟨?_, ?_, ?_, ?_, ?_, ?_⟩
    · rw [f1]
      simp
    · rw [f2]
    · rw [← hgt, f3 _ (by omega) (by omega), hD_k]
    · rw [f3 t (by omega) htP, hD_t]
    · intro x h1 h2 h3 h4
      rw [f3 x h3 h2, hD_f x h1 h2 h3 h4]
    · rw [f4, hD_nk]

theorem indentOne_create_eq {d : Doc} {t P : Nat} {ptag : String} {ppar : Option Nat}
    {tcs a b : List Nat}
    (ht : d.nodes t = some ⟨.item, some P, tcs⟩)
    (hP : d.nodes P = some ⟨.list ptag, ppar, a ++ t :: b⟩)
    (hnn : isListNode d tcs.head? = false)
    (hprevnn : isNestedListNode d a.getLast? = false)
    (hnextnn : isNestedListNode d b.head? = false)
    (hta : t ∉ a) :
    indentOne d t = indentCreateCase d t (some P) a.getLast? b.head? := by
  have hn : isNestedListNode d (some t) = false := by
    rw [isNestedListNode_item_eq ht]
    exact hnn
  have h2 : getParent d t = some P := by rw [getParent_eq ht]
  have hnext : getNextSibling d t = b.head? :=
    getNextSibling_eq ht rfl hP rfl hta
  have hprev : getPreviousSibling d t = a.getLast? :=
    getPreviousSibling_eq ht rfl hP rfl hta
  rw [indentOne]
  simp only [hn, Bool.false_eq_true, if_false, hnext, hprev, hprevnn, hnextnn,
    Bool.false_and, Bool.and_false, if_false, h2]
  exact indentFinish_eq _ _

theorem indentBothCase_spec {d : Doc} {t P A ila C ilc : Nat} {ptag atag ctag : String}
    {ppar : Option Nat} {tcs arest as cs a0 b0 : List Nat}
    (hn0 : d.nextKey ≠ 0)
    (ht : d.nodes t = some ⟨.item, some P, tcs⟩)
    (hP : d.nodes P = some ⟨.list ptag, ppar, a0 ++ A :: t :: C :: b0⟩)
    (hA : d.nodes A = some ⟨.item, some P, ila :: arest⟩)
    (hila : d.nodes ila = some ⟨.list atag, some A, as⟩)
    (hC : d.nodes C = some ⟨.item, some P, [ilc]⟩)
    (hilc : d.nodes ilc = some ⟨.list ctag, some C, cs⟩)
    (hcsmem : ∀ s ∈ cs, ∃ r, d.nodes s = some r ∧ r.parent = some ilc)
    (hcsnd : cs.Nodup)
    (hta0 : t ∉ a0) (hCa0 : C ∉ a0)
    (htP : t ≠ P) (htA : t ≠ A) (htila : t ≠ ila) (htC : t ≠ C) (htilc : t ≠ ilc)
    (hAP : A ≠ P) (hAila : A ≠ ila) (hAC : A ≠ C) (hAilc : A ≠ ilc)
    (hPila : P ≠ ila) (hPC : P ≠ C) (hPilc : P ≠ ilc)
    (hilaC : ila ≠ C) (hilailc : ila ≠ ilc) (hCilc : C ≠ ilc)
    (htcs : t ∉ cs) (hPcs : P ∉ cs) (hAcs : A ∉ cs) (hilacs : ila ∉ cs)
    (hCcs : C ∉ cs) (hilccs : ilc ∉ cs) :
    (indentBothCase d t (some A) (some C)).nodes ila =
      some ⟨.list atag, some A, as ++ t :: cs⟩ ∧
    (indentBothCase d t (some A) (some C)).nodes t = some ⟨.item, some ila, tcs⟩ ∧
    (indentBothCase d t (some A) (some C)).nodes P =
      some ⟨.list ptag, ppar, a0 ++ A :: b0⟩ ∧
    (indentBothCase d t (some A) (some C)).nodes A = some ⟨.item, some P, ila :: arest⟩ ∧
    (indentBothCase d t (some A) (some C)).nodes C = some ⟨.item, none, []⟩ ∧
    (indentBothCase d t (some A) (some C)).nodes ilc = some ⟨.list ctag, none, []⟩ ∧
    (∀ s r, s ∈ cs → d.nodes s = some r →
      (indentBothCase d t (some A) (some C)).nodes s = some { r with parent := some ila }) ∧
    (∀ x, x ≠ t → x ≠ P → x ≠ ila → x ≠ ilc → x ≠ C → x ∉ cs →
      (indentBothCase d t (some A) (some C)).nodes x = d.nodes x) ∧
    (indentBothCase d t (some A) (some C)).nextKey = d.nextKey := by
  obtain ⟨a1, a2, a3, a4, a5⟩ := appendChild_spec ht rfl hP hila htP htila hPila
  have hta0A : t ∉ a0 ++ [A] := by
    simp only [List.mem_append, List.mem_singleton, not_or]
    exact ⟨hta0, htA⟩
  have hd1P : (appendChild d ila t).nodes P =
      some ⟨.list ptag, ppar, a0 ++ A :: C :: b0⟩ := by
    rw [a1]
    rw [show eraseKey t ((⟨.list ptag, ppar, a0 ++ A :: t :: C :: b0⟩ : NodeRec).children)
      = (a0 ++ [A]) ++ C :: b0 by
        rw [show (a0 ++ A :: t :: C :: b0 : List Nat) = (a0 ++ [A]) ++ t :: C :: b0 by simp]
        exact eraseKey_append (C :: b0) hta0A]
    simp
  have hd1ila : (appendChild d ila t).nodes ila =
      some ⟨.list atag, some A, as ++ [t]⟩ := a2
  have hd1t : (appendChild d ila t).nodes t = some ⟨.item, some ila, tcs⟩ := a3
  have hd1C : (appendChild d ila t).nodes C = some ⟨.item, some P, [ilc]⟩ := by
    rw [a4 C (Ne.symm htC) (Ne.symm hilaC) (Ne.symm hPC), hC]
  have hd1ilc : (appendChild d ila t).nodes ilc = some ⟨.list ctag, some C, cs⟩ := by
    rw [a4 ilc (Ne.symm htilc) (Ne.symm hilailc) (Ne.symm hPilc), hilc]
  have hd1A : (appendChild d ila t).nodes A = some ⟨.item, some P, ila :: arest⟩ := by
    rw [a4 A (Ne.symm htA) hAila hAP, hA]
  have he : indentBothCase d t (some A) (some C) =
      removeNode (appendChildren (appendChild d ila t) ila cs) ilc := by
    simp only [indentBothCase, getFirstChild_eq hA, List.head?_cons,
      isListNode_eq_true hila, if_true, getFirstChild_eq hd1C,
      isListNode_eq_true hd1ilc, getChildren_eq hd1ilc, markChildrenDirty_eq]
  obtain ⟨q1, q2, q3, q4, q5⟩ := appendChildren_spec hd1ilc
    (show (⟨.list ctag, some C, cs⟩ : NodeRec).children = [] ++ cs ++ ([] : List Nat)
      by simp)
    hd1ila
    (by
      intro s hs
      obtain ⟨r, hr, hrp⟩ := hcsmem s hs
      refine ⟨r, ?_, hrp⟩
      rw [a4 s (fun h => htcs (h ▸ hs)) (fun h => hilacs (h ▸ hs))
        (fun h => hPcs (h ▸ hs)), hr])
    hcsnd
    (fun s _ => List.not_mem_nil s)
    (fun s _ => List.not_mem_nil s)
    (Ne.symm hilailc) hilccs hilacs
  have hd2ilc : (appendChildren (appendChild d ila t) ila cs).nodes ilc =
      some ⟨.list ctag, some C, []⟩ := q1
  have hd2ila : (appendChildren (appendChild d ila t) ila cs).nodes ila =
      some ⟨.list atag, some A, (as ++ [t]) ++ cs⟩ := q2
  have hd2C : (appendChildren (appendChild d ila t) ila cs).nodes C =
      some ⟨.item, some P, [ilc]⟩ := by
    rw [q4 C hCilc (Ne.symm hilaC) hCcs, hd1C]
  have hd2P : (appendChildren (appendChild d ila t) ila cs).nodes P =
      some ⟨.list ptag, ppar, a0 ++ A :: C :: b0⟩ := by
    rw [q4 P hPilc hPila hPcs, hd1P]
  have hd2t : (appendChildren (appendChild d ila t) ila cs).nodes t =
      some ⟨.item, some ila, tcs⟩ := by
    rw [q4 t htilc htila htcs, hd1t]
  have hd2A : (appendChildren (appendChild d ila t) ila cs).nodes A =
      some ⟨.item, some P, ila :: arest⟩ := by
    rw [q4 A hAilc hAila hAcs, hd1A]
  have hd2nk : (appendChildren (appendChild d ila t) ila cs).nextKey = d.nextKey := by
    rw [q5, a5]
  have hCa0A : C ∉ a0 ++ [A] := by
    simp only [List.mem_append, List.mem_singleton, not_or]
    exact ⟨hCa0, Ne.symm hAC⟩
  have hrm : removeNode (appendChildren (appendChild d ila t) ila cs) ilc =
      removeFromParent (removeFromParent
        (appendChildren (appendChild d ila t) ila cs) ilc) C := by
    refine removeNode_cascade_spec hd2ilc rfl hd2C (Ne.symm hCilc) (by simp [eraseKey])
      rfl hd2P (Ne.symm hPC) (Ne.symm hPilc) (Or.inl ?_) (by rw [hd2nk]; exact hn0)
    rw [show eraseKey C ((⟨.list ptag, ppar, a0 ++ A :: C :: b0⟩ : NodeRec).children)
      = (a0 ++ [A]) ++ b0 by
        rw [show (a0 ++ A :: C :: b0 : List Nat) = (a0 ++ [A]) ++ C :: b0 by simp]
        exact eraseKey_append b0 hCa0A]
    exact isEmpty_false_of_mem (x := A) (by simp)
  obtain ⟨w1, w2, w3, w4⟩ := removeFromParent_spec hd2ilc rfl hd2C (Ne.symm hCilc)
  have hw1C : (removeFromParent (appendChildren (appendChild d ila t) ila cs) ilc).nodes C
      = some ⟨.item, some P, []⟩ := by
    rw [w1]
    simp [eraseKey]
  have hw2ilc : (removeFromParent (appendChildren (appendChild d ila t) ila cs) ilc).nodes
      ilc = some ⟨.list ctag, none, []⟩ := w2
  have hwP : (removeFromParent (appendChildren (appendChild d ila t) ila cs) ilc).nodes P
      = some ⟨.list ptag, ppar, a0 ++ A :: C :: b0⟩ := by
    rw [w3 P hPilc hPC, hd2P]
  obtain ⟨v1, v2, v3, v4⟩ := removeFromParent_spec hw1C rfl hwP (Ne.symm hPC)
  rw [he, hrm]
  refine ⟨?_, ?_, ?_, ?_, ?_, ?_, ?_, ?_, ?_⟩
  · rw [v3 ila hilaC (Ne.symm hPila), w3 ila hilailc hilaC, hd2ila]
    simp
  · rw [v3 t htC htP, w3 t htilc htC, hd2t]
  · rw [v1]
    rw [show eraseKey C ((⟨.list ptag, ppar, a0 ++ A :: C :: b0⟩ : NodeRec).children)
      = (a0 ++ [A]) ++ b0 by
        rw [show (a0 ++ A :: C :: b0 : List Nat) = (a0 ++ [A]) ++ C :: b0 by simp]
        exact eraseKey_append b0 hCa0A]
    simp
  · rw [v3 A hAC hAP, w3 A hAilc hAC, hd2A]
  · exact v2
  · rw [v3 ilc (Ne.symm hCilc) (Ne.symm hPilc), hw2ilc]
  · intro s r hs hr
    rw [v3 s (fun h => hCcs (h ▸ hs)) (fun h => hPcs (h ▸ hs)),
      w3 s (fun h => hilccs (h ▸ hs)) (fun h => hCcs (h ▸ hs))]
    exact q3 s r hs (by
      rw [a4 s (fun h => htcs (h ▸ hs)) (fun h => hilacs (h ▸ hs))
        (fun h => hPcs (h ▸ hs)), hr])
  · intro x h1 h2 h3 h4 h5 h6
    rw [v3 x h5 h2, w3 x h4 h5, q4 x h4 h3 h6, a4 x h1 h3 h2]
  · rw [v4, w4, hd2nk]

theorem indentOne_both_eq {d : Doc} {t P A ila C ilc : Nat} {ptag atag ctag : String}
    {ppar : Option Nat} {tcs arest ilacs ilccs a0 b0 : List Nat}
    (ht : d.nodes t = some ⟨.item, some P, tcs⟩)
    (hP : d.nodes P = some ⟨.list ptag, ppar, a0 ++ A :: t :: C :: b0⟩)
    (hA : d.nodes A = some ⟨.item, some P, ila :: arest⟩)
    (hila : d.nodes ila = some ⟨.list atag, some A, ilacs⟩)
    (hC : d.nodes C = some ⟨.item, some P, ilc :: ilccs⟩)
    (hilc : d.nodes ilc = some ⟨.list ctag, some C, cs⟩)
    (hnn : isListNode d tcs.head? = false)
    (hta0 : t ∉ a0) (htA : t ≠ A) :
    indentOne d t = indentBothCase d t (some A) (some C) := by
  have hn : isNestedListNode d (some t) = false := by
    rw [isNestedListNode_item_eq ht]
    exact hnn
  have hta0A : t ∉ a0 ++ [A] := by
    simp only [List.mem_append, List.mem_singleton, not_or]
    exact ⟨hta0, htA⟩
  have hpc : (⟨.list ptag, ppar, a0 ++ A :: t :: C :: b0⟩ : NodeRec).children
      = (a0 ++ [A]) ++ t :: C :: b0 := by simp
  have hnext : getNextSibling d t = some C := by
    rw [getNextSibling_eq ht rfl hP hpc hta0A]
    rfl
  have hprev : getPreviousSibling d t = some A := by
    rw [getPreviousSibling_eq ht rfl hP hpc hta0A,
      List.getLast?_append_of_ne_nil a0 (show ([A] : List Nat) ≠ [] by simp)]
    rfl
  have hCw : isNestedListNode d (some C) = true := by
    rw [isNestedListNode_item_eq hC]
    exact isListNode_eq_true hilc
  have hAw : isNestedListNode d (some A) = true := by
    rw [isNestedListNode_item_eq hA]
    exact isListNode_eq_true hila
  rw [indentOne]
  simp only [hn, Bool.false_eq_true, if_false, hnext, hprev, hCw, hAw,
    Bool.and_self, if_true]
  exact indentFinish_eq _ _

theorem outdentLastCase_keep_spec {d : Doc} {t pl gp ggp : Nat} {tag gtag : String}
    {gpar : Option Nat} {tcs gpcs gpre gpost pre : List Nat}
    (ht : d.nodes t = some ⟨.item, some pl, tcs⟩)
    (hpl : d.nodes pl = some ⟨.list tag, some gp, pre ++ [t]⟩)
    (hgp : d.nodes gp = some ⟨.item, some ggp, gpcs⟩)
    (hggp : d.nodes ggp = some ⟨.list gtag, gpar, gpre ++ gp :: gpost⟩)
    (hpre : pre ≠ []) (htpre : t ∉ pre)
    (htpl : t ≠ pl) (htgp : t ≠ gp) (htggp : t ≠ ggp)
    (hplgp : pl ≠ gp) (hplggp : pl ≠ ggp) (hgpggp : gp ≠ ggp)
    (hgpgpre : gp ∉ gpre) :
    (outdentLastCase d t pl gp).nodes ggp =
      some ⟨.list gtag, gpar, gpre ++ gp :: t :: gpost⟩ ∧
    (outdentLastCase d t pl gp).nodes t = some ⟨.item, some ggp, tcs⟩ ∧
    (outdentLastCase d t pl gp).nodes pl = some ⟨.list tag, some gp, pre⟩ ∧
    (outdentLastCase d t pl gp).nodes gp = some ⟨.item, some ggp, gpcs⟩ ∧
    (∀ x, x ≠ t → x ≠ pl → x ≠ ggp → (outdentLastCase d t pl gp).nodes x = d.nodes x) ∧
    (outdentLastCase d t pl gp).nextKey = d.nextKey := by
  obtain ⟨r1, r2, r3, r4, r5⟩ := insertAfter_spec ht rfl hpl hgp rfl hggp rfl hgpgpre
    htpl htggp hplggp (Ne.symm htgp) (Ne.symm hplgp)
  have hd1pl : (insertAfter d gp t).nodes pl = some ⟨.list tag, some gp, pre⟩ := by
    rw [r3]
    rw [show eraseKey t ((⟨.list tag, some gp, pre ++ [t]⟩ : NodeRec).children)
      = pre ++ [] from eraseKey_append [] htpre]
    simp
  have hne : nodeIsEmpty (insertAfter d gp t) pl = false := by
    rw [nodeIsEmpty, getChildren_eq hd1pl]
    cases pre
    · exact absurd rfl hpre
    · rfl
  have he : outdentLastCase d t pl gp = insertAfter d gp t := by
    simp only [outdentLastCase, hne, Bool.false_eq_true, if_false]
  rw [he]
  refine ⟨r1, r2, hd1pl, ?_, ?_, r5⟩
  · rw [r4 gp (Ne.symm htgp) hgpggp (Ne.symm hplgp), hgp]
  · intro x h1 h2 h3
    rw [r4 x h1 h3 h2]

theorem outdentOne_last_eq {d : Doc} {t pl gp ggp : Nat} {tag gtag : String}
    {gpar : Option Nat} {tcs gpcs gcs pre : List Nat}
    (ht : d.nodes t = some ⟨.item, some pl, tcs⟩)
    (hpl : d.nodes pl = some ⟨.list tag, some gp, pre ++ [t]⟩)
    (hgp : d.nodes gp = some ⟨.item, some ggp, gpcs⟩)
    (hggp : d.nodes ggp = some ⟨.list gtag, gpar, gcs⟩)
    (hnn : isListNode d tcs.head? = false)
    (hpre : pre ≠ []) (htpre : t ∉ pre) :
    outdentOne d t = outdentLastCase d t pl gp := by
  have h1 : isNestedListNode d (some t) = false := by
    rw [isNestedListNode_item_eq ht]
    exact hnn
  have h2 : getParent d t = some pl := by rw [getParent_eq ht]
  have h3 : getParent d pl = some gp := by rw [getParent_eq hpl]
  have h4 : getParent d gp = some ggp := by rw [getParent_eq hgp]
  have h5 : isListNode d (some ggp) = true := isListNode_eq_true hggp
  have h6 : isListItemNode d (some gp) = true := isListItemNode_eq_true hgp
  have h7 : isListNode d (some pl) = true := isListNode_eq_true hpl
  have h10 : ¬(getFirstChild d pl = some t) := by
    rw [getFirstChild_eq hpl]
    exact head?_append_cons_ne hpre htpre
  have h11 : getLastChild d pl = some t := by
    rw [getLastChild_eq hpl]
    rw [show (⟨.list tag, some gp, pre ++ [t]⟩ : NodeRec).children = pre ++ [t] from rfl,
      List.getLast?_append_of_ne_nil pre (show ([t] : List Nat) ≠ [] by simp)]
    rfl
  rw [outdentOne, h1]
  simp only [Bool.false_eq_true, if_false, h2, Option.some_bind, h3, h4, h5, h6, h7,
    Bool.and_self, if_true, h10, h11, markChildrenDirty_eq, ite_false]

theorem mem_of_headEq {l : List Nat} {c : Nat} (h : l.head? = some c) : c ∈ l := by
  cases l with
  | nil => cases h
  | cons y ys =>
    simp only [List.head?_cons, Option.some.injEq] at h
    subst h
    exact List.mem_cons_self _ _

theorem isListNode_congr {d dd : Doc} (k : Option Nat)
    (h : ∀ c, k = some c → dd.nodes c = d.nodes c) :
    isListNode dd k = isListNode d k := by
  cases k with
  | none => rfl
  | some c =>
    have hc := h c rfl
    simp only [isListNode, hc]

theorem roundTripCreate {d : Doc} {t P : Nat} {ptag : String} {ppar : Option Nat}
    {tcs a b : List Nat}
    (hfresh : ∀ k r, d.nodes k = some r → k < d.nextKey)
    (ht : d.nodes t = some ⟨.item, some P, tcs⟩)
    (hP : d.nodes P = some ⟨.list ptag, ppar, a ++ t :: b⟩)
    (hamem : ∀ s ∈ a, ∃ r, d.nodes s = some r ∧ r.parent = some P)
    (hbmem : ∀ s ∈ b, ∃ r, d.nodes s = some r ∧ r.parent = some P)
    (hnn : isListNode d tcs.head? = false)
    (hprevnn : isNestedListNode d a.getLast? = false)
    (hnextnn : isNestedListNode d b.head? = false)
    (hta : t ∉ a) (htb : t ∉ b) (hand : a.Nodup)
    (htP : t ≠ P) (hPa : P ∉ a) (hPb : P ∉ b)
    (httcs : t ∉ tcs) (hPtcs : P ∉ tcs)
    (htcsb : ∀ c ∈ tcs, c < d.nextKey) :
    ∀ x r, d.nodes x = some r →
      (handleOutdent (handleIndent d [t]) [t]).nodes x = some r := by
  have hbt : t < d.nextKey := hfresh t _ ht
  have hbP : P < d.nextKey := hfresh P _ hP
  have hind : handleIndent d [t] = indentCreateCase d t (some P) a.getLast? b.head? := by
    show indentOne d t = _
    exact indentOne_create_eq ht hP hnn hprevnn hnextnn hta
  obtain ⟨i1, i2, i3, i4, i5, i6⟩ :=
    indentCreateCase_spec hfresh ht hP hamem hbmem hta htb hand htP hPa hPb
  have htrans : ∀ c, tcs.head? = some c →
      (indentCreateCase d t (some P) a.getLast? b.head?).nodes c = d.nodes c := by
    intro c hc
    have hcmem : c ∈ tcs := mem_of_headEq hc
    have hcb : c < d.nextKey := htcsb c hcmem
    exact i5 c (fun h => httcs (h ▸ hcmem)) (fun h => hPtcs (h ▸ hcmem))
      (by omega) (by omega)
  have hnn1 : isListNode (indentCreateCase d t (some P) a.getLast? b.head?)
      tcs.head? = false := by
    rw [isListNode_congr tcs.head? htrans]
    exact hnn
  have hout : handleOutdent (indentCreateCase d t (some P) a.getLast? b.head?) [t]
      = outdentFirstCase (indentCreateCase d t (some P) a.getLast? b.head?)
        t (d.nextKey + 1) d.nextKey := by
    show outdentOne _ t = _
    exact outdentOne_first_eq i4 i3 i2 i1 hnn1
  have ha_nk : d.nextKey ∉ a := by
    intro hmem
    obtain ⟨r, hr, _⟩ := hamem _ hmem
    have := hfresh _ _ hr
    omega
  obtain ⟨o1, o2, o3, o4, o5, o6⟩ := outdentFirstCase_empty_spec i4 i3 i2 i1
    (by omega) (by omega) htP (by omega) (by omega) (by omega) ha_nk
  intro x r hxr
  have hbx : x < d.nextKey := hfresh x r hxr
  rw [hind, hout]
  by_cases hxt : x = t
  · subst hxt
    rw [ht] at hxr
    rw [o2, hxr]
  · by_cases hxP : x = P
    · subst hxP
      rw [hP] at hxr
      rw [o1, hxr]
    · rw [o5 x hxt (by omega) (by omega) hxP, i5 x hxt hxP (by omega) (by omega), hxr]

theorem roundTripPrev {d : Doc} {t P A il : Nat} {ptag iltag : String}
    {ppar : Option Nat} {tcs arest ics a b : List Nat}
    (ht : d.nodes t = some ⟨.item, some P, tcs⟩)
    (hP : d.nodes P = some ⟨.list ptag, ppar, a ++ A :: t :: b⟩)
    (hA : d.nodes A = some ⟨.item, some P, il :: arest⟩)
    (hil : d.nodes il = some ⟨.list iltag, some A, ics⟩)
    (hnn : isListNode d tcs.head? = false)
    (hnextnn : isNestedListNode d b.head? = false)
    (hics : ics ≠ [])
    (hta : t ∉ a) (htA : t ≠ A) (htP : t ≠ P) (htil : t ≠ il)
    (hPil : P ≠ il) (hAil : A ≠ il) (hAP : A ≠ P)
    (htics : t ∉ ics)
    (httcs : t ∉ tcs) (hiltcs : il ∉ tcs) (hPtcs : P ∉ tcs)
    (hAa : A ∉ a) :
    ∀ x r, d.nodes x = some r →
      (handleOutdent (handleIndent d [t]) [t]).nodes x = some r := by
  have hind : handleIndent d [t] = indentPrevCase d t (some A) := by
    show indentOne d t = _
    exact indentOne_prev_eq ht hP hA hil hnn hnextnn hta htA
  obtain ⟨j1, j2, j3, j4, j5, j6⟩ :=
    indentPrevCase_spec ht hP hA hil hta htA htP htil hPil hAil hAP
  have htrans : ∀ c, tcs.head? = some c →
      (indentPrevCase d t (some A)).nodes c = d.nodes c := by
    intro c hc
    have hcmem : c ∈ tcs := mem_of_headEq hc
    exact j5 c (fun h => httcs (h ▸ hcmem)) (fun h => hiltcs (h ▸ hcmem))
      (fun h => hPtcs (h ▸ hcmem))
  have hnn1 : isListNode (indentPrevCase d t (some A)) tcs.head? = false := by
    rw [isListNode_congr tcs.head? htrans]
    exact hnn
  have hout : handleOutdent (indentPrevCase d t (some A)) [t]
      = outdentLastCase (indentPrevCase d t (some A)) t il A := by
    show outdentOne _ t = _
    exact outdentOne_last_eq j2 j1 j4 j3 hnn1 hics htics
  obtain ⟨o1, o2, o3, o4, o5, o6⟩ := outdentLastCase_keep_spec j2 j1 j4 j3
    hics htics htil htA htP (Ne.symm hAil) (Ne.symm hPil) hAP hAa
  intro x r hxr
  rw [hind, hout]
  by_cases hxt : x = t
  · subst hxt
    rw [ht] at hxr
    rw [o2, hxr]
  · by_cases hxP : x = P
    · subst hxP
      rw [hP] at hxr
      rw [o1, hxr]
    · by_cases hxil : x = il
      · subst hxil
        rw [hil] at hxr
        rw [o3, hxr]
      · rw [o5 x hxt hxil hxP, j5 x hxt hxil hxP, hxr]

theorem roundTripNext {d : Doc} {t P C il c0 : Nat} {ptag iltag : String}
    {ppar : Option Nat} {c0r : NodeRec} {tcs crest cs a b : List Nat}
    (ht : d.nodes t = some ⟨.item, some P, tcs⟩)
    (hP : d.nodes P = some ⟨.list ptag, ppar, a ++ t :: C :: b⟩)
    (hC : d.nodes C = some ⟨.item, some P, il :: crest⟩)
    (hil : d.nodes il = some ⟨.list iltag, some C, c0 :: cs⟩)
    (hc0 : d.nodes c0 = some c0r) (hc0p : c0r.parent = some il)
    (hnn : isListNode d tcs.head? = false)
    (hprevnn : isNestedListNode d a.getLast? = false)
    (hta : t ∉ a)
    (htP : t ≠ P) (htil : t ≠ il) (hPil : P ≠ il)
    (hc0t : c0 ≠ t) (hc0P : c0 ≠ P)
    (hCt : C ≠ t) (hCil : C ≠ il) (hCP : C ≠ P)
    (httcs : t ∉ tcs) (hiltcs : il ∉ tcs) (hPtcs : P ∉ tcs)
    (hCa : C ∉ a) :
    ∀ x r, d.nodes x = some r →
      (handleOutdent (handleIndent d [t]) [t]).nodes x = some r := by
  have hind : handleIndent d [t] = indentNextCase d t (some C) := by
    show indentOne d t = _
    exact indentOne_next_eq ht hP hC hil hnn hprevnn hta
  obtain ⟨k1, k2, k3, k4, k5, k6⟩ :=
    indentNextCase_spec ht hP hC hil hc0 hc0p hta htP htil hPil hc0t hc0P hCt hCil hCP
  have htrans : ∀ c, tcs.head? = some c →
      (indentNextCase d t (some C)).nodes c = d.nodes c := by
    intro c hc
    have hcmem : c ∈ tcs := mem_of_headEq hc
    exact k5 c (fun h => httcs (h ▸ hcmem)) (fun h => hiltcs (h ▸ hcmem))
      (fun h => hPtcs (h ▸ hcmem))
  have hnn1 : isListNode (indentNextCase d t (some C)) tcs.head? = false := by
    rw [isListNode_congr tcs.head? htrans]
    exact hnn
  have hout : handleOutdent (indentNextCase d t (some C)) [t]
      = outdentFirstCase (indentNextCase d t (some C)) t il C := by
    show outdentOne _ t = _
    exact outdentOne_first_eq k2 k1 k4 k3 hnn1
  obtain ⟨o1, o2, o3, o4, o5, o6⟩ := outdentFirstCase_keep_spec k2 k1 k4 k3
    (List.cons_ne_nil c0 cs) htil (Ne.symm hCt) htP (Ne.symm hCil) (Ne.symm hPil)
    hCP hCa
  intro x r hxr
  rw [hind, hout]
  by_cases hxt : x = t
  · subst hxt
    rw [ht] at hxr
    rw [o2, hxr]
  · by_cases hxP : x = P
    · subst hxP
      rw [hP] at hxr
      rw [o1, hxr]
    · by_cases hxil : x = il
      · subst hxil
        rw [hil] at hxr
        rw [o3, hxr]
      · rw [o5 x hxt hxil hxP, k5 x hxt hxil hxP, hxr]

theorem roundTripBoth {d : Doc} {t P A ila C ilc : Nat} {ptag atag ctag : String}
    {ppar : Option Nat} {tcs arest as cs a0 b0 : List Nat}
    (hfresh : ∀ k r, d.nodes k = some r → k < d.nextKey)
    (ht : d.nodes t = some ⟨.item, some P, tcs⟩)
    (hP : d.nodes P = some ⟨.list ptag, ppar, a0 ++ A :: t :: C :: b0⟩)
    (hA : d.nodes A = some ⟨.item, some P, ila :: arest⟩)
    (hila : d.nodes ila = some ⟨.list atag, some A, as⟩)
    (hC : d.nodes C = some ⟨.item, some P, [ilc]⟩)
    (hilc : d.nodes ilc = some ⟨.list ctag, some C, cs⟩)
    (hnn : isListNode d tcs.head? = false)
    (hasmem : ∀ s ∈ as, ∃ r, d.nodes s = some r ∧ r.parent = some ila)
    (hcsmem : ∀ s ∈ cs, ∃ r, d.nodes s = some r ∧ r.parent = some ilc)
    (hasnd : as.Nodup) (hcsnd : cs.Nodup)
    (hasne : as ≠ []) (hcsne : cs ≠ [])
    (hdisj : ∀ s ∈ as, s ∉ cs)
    (hta0 : t ∉ a0) (hCa0 : C ∉ a0) (hAa0 : A ∉ a0)
    (htP : t ≠ P) (htA : t ≠ A) (htila : t ≠ ila) (htC : t ≠ C) (htilc : t ≠ ilc)
    (hAP : A ≠ P) (hAila : A ≠ ila) (hAC : A ≠ C) (hAilc : A ≠ ilc)
    (hPila : P ≠ ila) (hPC : P ≠ C) (hPilc : P ≠ ilc)
    (hilaC : ila ≠ C) (hilailc : ila ≠ ilc) (hCilc : C ≠ ilc)
    (htcs : t ∉ cs) (hPcs : P ∉ cs) (hAcs : A ∉ cs) (hilacs : ila ∉ cs)
    (hCcs : C ∉ cs) (hilccs : ilc ∉ cs)
    (htas : t ∉ as) (hPas : P ∉ as) (hAas : A ∉ as) (hilaas : ila ∉ as)
    (hCas : C ∉ as) (hilcas : ilc ∉ as)
    (httcs : t ∉ tcs) (hPtcs : P ∉ tcs) (hAtcs : A ∉ tcs) (hilatcs : ila ∉ tcs)
    (hCtcs : C ∉ tcs) (hilctcs : ilc ∉ tcs)
    (htcscs : ∀ c ∈ tcs, c ∉ cs) :
    (handleOutdent (handleIndent d [t]) [t]).nodes P =
      some ⟨.list ptag, ppar, a0 ++ d.nextKey :: t :: (d.nextKey + 2) :: b0⟩ ∧
    (handleOutdent (handleIndent d [t]) [t]).nodes t = some ⟨.item, some P, tcs⟩ ∧
    (handleOutdent (handleIndent d [t]) [t]).nodes d.nextKey =
      some ⟨.item, some P, [d.nextKey + 1]⟩ ∧
    (handleOutdent (handleIndent d [t]) [t]).nodes (d.nextKey + 1) =
      some ⟨.list atag, some d.nextKey, as⟩ ∧
    (handleOutdent (handleIndent d [t]) [t]).nodes (d.nextKey + 2) =
      some ⟨.item, some P, [d.nextKey + 3]⟩ ∧
    (handleOutdent (handleIndent d [t]) [t]).nodes (d.nextKey + 3) =
      some ⟨.list atag, some (d.nextKey + 2), cs⟩ ∧
    (∀ s r, s ∈ as → d.nodes s = some r →
      (handleOutdent (handleIndent d [t]) [t]).nodes s =
        some { r with parent := some (d.nextKey + 1) }) ∧
    (∀ s r, s ∈ cs → d.nodes s = some r →
      (handleOutdent (handleIndent d [t]) [t]).nodes s =
        some { r with parent := some (d.nextKey + 3) }) ∧
    (∀ x r, d.nodes x = some r → x ≠ t → x ≠ P → x ≠ A → x ≠ ila → x ≠ C → x ≠ ilc →
      x ∉ as → x ∉ cs →
      (handleOutdent (handleIndent d [t]) [t]).nodes x = d.nodes x) := by
  have hbt : t < d.nextKey := hfresh t _ ht
  have hn0 : d.nextKey ≠ 0 := by omega
  have hind : handleIndent d [t] = indentBothCase d t (some A) (some C) := by
    show indentOne d t = _
    exact indentOne_both_eq ht hP hA hila hC hilc hnn hta0 htA
  obtain ⟨i1, i2, i3, i4, i5, i6, i7, i8, i9⟩ := indentBothCase_spec hn0 ht hP hA hila hC
    hilc hcsmem hcsnd hta0 hCa0 htP htA htila htC htilc hAP hAila hAC hAilc hPila hPC
    hPilc hilaC hilailc hCilc htcs hPcs hAcs hilacs hCcs hilccs
  have htrans : ∀ c, tcs.head? = some c →
      (indentBothCase d t (some A) (some C)).nodes c = d.nodes c := by
    intro c hc
    have hcmem : c ∈ tcs := mem_of_headEq hc
    exact i8 c (fun h => httcs (h ▸ hcmem)) (fun h => hPtcs (h ▸ hcmem))
      (fun h => hilatcs (h ▸ hcmem)) (fun h => hilctcs (h ▸ hcmem))
      (fun h => hCtcs (h ▸ hcmem)) (htcscs c hcmem)
  have hnn1 : isListNode (indentBothCase d t (some A) (some C)) tcs.head? = false := by
    rw [isListNode_congr tcs.head? htrans]
    exact hnn
  have hout : handleOutdent (indentBothCase d t (some A) (some C)) [t]
      = outdentSplitCase (indentBothCase d t (some A) (some C)) t A atag := by
    show outdentOne _ t = _
    exact outdentOne_split_eq i2 i1 i4 i3 hnn1 hasne hcsne htas htcs
  have hfresh1 : ∀ k r, (indentBothCase d t (some A) (some C)).nodes k = some r →
      k < (indentBothCase d t (some A) (some C)).nextKey := by
    intro k r hk
    rw [i9]
    by_cases h1 : k = t
    · have := hfresh t _ ht
      omega
    · by_cases h2 : k = P
      · have := hfresh P _ hP
        omega
      · by_cases h3 : k = ila
        · have := hfresh ila _ hila
          omega
        · by_cases h4 : k = ilc
          · have := hfresh ilc _ hilc
            omega
          · by_cases h5 : k = C
            · have := hfresh C _ hC
              omega
            · by_cases h6 : k ∈ cs
              · obtain ⟨r2, hr2, _⟩ := hcsmem k h6
                have := hfresh k _ hr2
                omega
              · rw [i8 k h1 h2 h3 h4 h5 h6] at hk
                exact hfresh k r hk
  have hasmem1 : ∀ s ∈ as, ∃ r,
      (indentBothCase d t (some A) (some C)).nodes s = some r ∧
      r.parent = some ila := by
    intro s hs
    obtain ⟨r, hr, hrp⟩ := hasmem s hs
    refine ⟨r, ?_, hrp⟩
    rw [i8 s (fun h => htas (h ▸ hs)) (fun h => hPas (h ▸ hs))
      (fun h => hilaas (h ▸ hs)) (fun h => hilcas (h ▸ hs))
      (fun h => hCas (h ▸ hs)) (hdisj s hs), hr]
  have hcsmem1 : ∀ s ∈ cs, ∃ r,
      (indentBothCase d t (some A) (some C)).nodes s = some r ∧
      r.parent = some ila := by
    intro s hs
    obtain ⟨r, hr, hrp⟩ := hcsmem s hs
    exact ⟨{ r with parent := some ila }, i7 s r hs hr, rfl⟩
  obtain ⟨s1, s2, s3, s4, s5, s6, s7, s8, s9, s10, s11, s12⟩ :=
    outdentSplitCase_spec hfresh1 i2 i1 i4 i3 hasmem1 hcsmem1 htas htcs hasnd hcsnd
      hdisj htila htA htP (Ne.symm hAila) (Ne.symm hPila) hAP hilaas hilacs hAas hAcs
      hPas hPcs hAa0
  rw [i9] at s1 s2 s3 s4 s5 s9 s10 s11
  rw [hind, hout]
  refine ⟨s1, s6, s2, s3, s4, s5, ?_, ?_, ?_⟩
  · intro s r hs hr
    refine s9 s r hs ?_
    rw [i8 s (fun h => htas (h ▸ hs)) (fun h => hPas (h ▸ hs))
      (fun h => hilaas (h ▸ hs)) (fun h => hilcas (h ▸ hs))
      (fun h => hCas (h ▸ hs)) (hdisj s hs), hr]
  · intro s r hs hr
    exact s10 s { r with parent := some ila } hs (i7 s r hs hr)
  · intro x r hxr h1 h2 h3 h4 h5 h6 h7 h8
    have hbx : x < d.nextKey := hfresh x r hxr
    rw [s11 x h1 h4 h3 h2 h7 h8 (by omega) (by omega) (by omega) (by omega),
      i8 x h1 h2 h4 h6 h5 h8]

/-- C4 amended: for a single fresh-keyed target ListItem that is not itself a
nested-list wrapper, indent followed immediately by outdent restores the
target to its position among the same siblings in order, provided every
adjacent nested-list wrapper involved has a nonempty inner List.  (1) With
no adjacent wrapper (synthesize branch), every pre-existing node keeps its
exact record.  (2) With only a previous-sibling wrapper whose inner List is
nonempty, every pre-existing node keeps its exact record.  (3) With only a
next-sibling wrapper whose inner List is nonempty, every pre-existing node
keeps its exact record.  (4) With wrappers on both sides whose inner Lists
are nonempty, the target and its outer siblings are restored in order, but
the two wrappers are re-created with fresh identities, and the re-created
following wrapper's inner List inherits the previous wrapper's inner List
tag rather than its own.  When an adjacent wrapper's inner List is empty
the round trip does not restore the tree (see the counterexample). -/
theorem c4_round_trip_amended :
    (∀ (d : Doc) (t P : Nat) (ptag : String) (ppar : Option Nat) (tcs a b : List Nat),
      (∀ k r, d.nodes k = some r → k < d.nextKey) →
      d.nodes t = some ⟨.item, some P, tcs⟩ →
      d.nodes P = some ⟨.list ptag, ppar, a ++ t :: b⟩ →
      (∀ s ∈ a, ∃ r, d.nodes s = some r ∧ r.parent = some P) →
      (∀ s ∈ b, ∃ r, d.nodes s = some r ∧ r.parent = some P) →
      isListNode d tcs.head? = false →
      isNestedListNode d a.getLast? = false →
      isNestedListNode d b.head? = false →
      t ∉ a → t ∉ b → a.Nodup → t ≠ P → P ∉ a → P ∉ b →
      t ∉ tcs → P ∉ tcs → (∀ c ∈ tcs, c < d.nextKey) →
      ∀ x r, d.nodes x = some r →
        (handleOutdent (handleIndent d [t]) [t]).nodes x = some r) ∧
    (∀ (d : Doc) (t P A il : Nat) (ptag iltag : String) (ppar : Option Nat)
      (tcs arest ics a b : List Nat),
      d.nodes t = some ⟨.item, some P, tcs⟩ →
      d.nodes P = some ⟨.list ptag, ppar, a ++ A :: t :: b⟩ →
      d.nodes A = some ⟨.item, some P, il :: arest⟩ →
      d.nodes il = some ⟨.list iltag, some A, ics⟩ →
      isListNode d tcs.head? = false →
      isNestedListNode d b.head? = false →
      ics ≠ [] →
      t ∉ a → t ≠ A → t ≠ P → t ≠ il → P ≠ il → A ≠ il → A ≠ P →
      t ∉ ics → t ∉ tcs → il ∉ tcs → P ∉ tcs → A ∉ a →
      ∀ x r, d.nodes x = some r →
        (handleOutdent (handleIndent d [t]) [t]).nodes x = some r) ∧
    (∀ (d : Doc) (t P C il c0 : Nat) (ptag iltag : String) (ppar : Option Nat)
      (c0r : NodeRec) (tcs crest cs a b : List Nat),
      d.nodes t = some ⟨.item, some P, tcs⟩ →
      d.nodes P = some ⟨.list ptag, ppar, a ++ t :: C :: b⟩ →
      d.nodes C = some ⟨.item, some P, il :: crest⟩ →
      d.nodes il = some ⟨.list iltag, some C, c0 :: cs⟩ →
      d.nodes c0 = some c0r → c0r.parent = some il →
      isListNode d tcs.head? = false →
      isNestedListNode d a.getLast? = false →
      t ∉ a → t ≠ P → t ≠ il → P ≠ il → c0 ≠ t → c0 ≠ P →
      C ≠ t → C ≠ il → C ≠ P →
      t ∉ tcs → il ∉ tcs → P ∉ tcs → C ∉ a →
      ∀ x r, d.nodes x = some r →
        (handleOutdent (handleIndent d [t]) [t]).nodes x = some r) ∧
    (∀ (d : Doc) (t P A ila C ilc : Nat) (ptag atag ctag : String)
      (ppar : Option Nat) (tcs arest as cs a0 b0 : List Nat),
      (∀ k r, d.nodes k = some r → k < d.nextKey) →
      d.nodes t = some ⟨.item, some P, tcs⟩ →
      d.nodes P = some ⟨.list ptag, ppar, a0 ++ A :: t :: C :: b0⟩ →
      d.nodes A = some ⟨.item, some P, ila :: arest⟩ →
      d.nodes ila = some ⟨.list atag, some A, as⟩ →
      d.nodes C = some ⟨.item, some P, [ilc]⟩ →
      d.nodes ilc = some ⟨.list ctag, some C, cs⟩ →
      isListNode d tcs.head? = false →
      (∀ s ∈ as, ∃ r, d.nodes s = some r ∧ r.parent = some ila) →
      (∀ s ∈ cs, ∃ r, d.nodes s = some r ∧ r.parent = some ilc) →
      as.Nodup → cs.Nodup → as ≠ [] → cs ≠ [] →
      (∀ s ∈ as, s ∉ cs) →
      t ∉ a0 → C ∉ a0 → A ∉ a0 →
      t ≠ P → t ≠ A → t ≠ ila → t ≠ C → t ≠ ilc →
      A ≠ P → A ≠ ila → A ≠ C → A ≠ ilc →
      P ≠ ila → P ≠ C → P ≠ ilc →
      ila ≠ C → ila ≠ ilc → C ≠ ilc →
      t ∉ cs → P ∉ cs → A ∉ cs → ila ∉ cs → C ∉ cs → ilc ∉ cs →
      t ∉ as → P ∉ as → A ∉ as → ila ∉ as → C ∉ as → ilc ∉ as →
      t ∉ tcs → P ∉ tcs → A ∉ tcs → ila ∉ tcs → C ∉ tcs → ilc ∉ tcs →
      (∀ c ∈ tcs, c ∉ cs) →
      (handleOutdent (handleIndent d [t]) [t]).nodes P =
        some ⟨.list ptag, ppar, a0 ++ d.nextKey :: t :: (d.nextKey + 2) :: b0⟩ ∧
      (handleOutdent (handleIndent d [t]) [t]).nodes t = some ⟨.item, some P, tcs⟩ ∧
      (handleOutdent (handleIndent d [t]) [t]).nodes d.nextKey =
        some ⟨.item, some P, [d.nextKey + 1]⟩ ∧
      (handleOutdent (handleIndent d [t]) [t]).nodes (d.nextKey + 1) =
        some ⟨.list atag, some d.nextKey, as⟩ ∧
      (handleOutdent (handleIndent d [t]) [t]).nodes (d.nextKey + 2) =
        some ⟨.item, some P, [d.nextKey + 3]⟩ ∧
      (handleOutdent (handleIndent d [t]) [t]).nodes (d.nextKey + 3) =
        some ⟨.list atag, some (d.nextKey + 2), cs⟩ ∧
      (∀ s r, s ∈ as → d.nodes s = some r →
        (handleOutdent (handleIndent d [t]) [t]).nodes s =
          some { r with parent := some (d.nextKey + 1) }) ∧
      (∀ s r, s ∈ cs → d.nodes s = some r →
        (handleOutdent (handleIndent d [t]) [t]).nodes s =
          some { r with parent := some (d.nextKey + 3) }) ∧
      (∀ x r, d.nodes x = some r → x ≠ t → x ≠ P → x ≠ A → x ≠ ila → x ≠ C →
        x ≠ ilc → x ∉ as → x ∉ cs →
        (handleOutdent (handleIndent d [t]) [t]).nodes x = d.nodes x)) := by
  refine ⟨?_, ?_, ?_, ?_⟩
  · intro d t P ptag ppar tcs a b hfresh ht hP hamem hbmem hnn hprevnn hnextnn hta htb
      hand htP hPa hPb httcs hPtcs htcsb
    exact roundTripCreate hfresh ht hP hamem hbmem hnn hprevnn hnextnn hta htb hand htP
      hPa hPb httcs hPtcs htcsb
  · intro d t P A il ptag iltag ppar tcs arest ics a b ht hP hA hil hnn hnextnn hics hta
      htA htP htil hPil hAil hAP htics httcs hiltcs hPtcs hAa
    exact roundTripPrev ht hP hA hil hnn hnextnn hics hta htA htP htil hPil hAil hAP
      htics httcs hiltcs hPtcs hAa
  · intro d t P C il c0 ptag iltag ppar c0r tcs crest cs a b ht hP hC hil hc0 hc0p hnn
      hprevnn hta htP htil hPil hc0t hc0P hCt hCil hCP httcs hiltcs hPtcs hCa
    exact roundTripNext ht hP hC hil hc0 hc0p hnn hprevnn hta htP htil hPil hc0t hc0P
      hCt hCil hCP httcs hiltcs hPtcs hCa
  · intro d t P A ila C ilc ptag atag ctag ppar tcs arest as cs a0 b0 hfresh ht hP hA
      hila hC hilc hnn hasmem hcsmem hasnd hcsnd hasne hcsne hdisj hta0 hCa0 hAa0 htP
      htA htila htC htilc hAP hAila hAC hAilc hPila hPC hPilc hilaC hilailc hCilc htcs
      hPcs hAcs hilacs hCcs hilccs htas hPas hAas hilaas hCas hilcas httcs hPtcs hAtcs
      hilatcs hCtcs hilctcs htcscs
    exact roundTripBoth hfresh ht hP hA hila hC hilc hnn hasmem hcsmem hasnd hcsnd hasne
      hcsne hdisj hta0 hCa0 hAa0 htP htA htila htC htilc hAP hAila hAC hAilc hPila hPC
      hPilc hilaC hilailc hCilc htcs hPcs hAcs hilacs hCcs hilccs htas hPas hAas hilaas
      hCas hilcas httcs hPtcs hAtcs hilatcs hCtcs hilctcs htcscs

/-- Concrete document for the create-branch round trip: outer List 0 holds
items 1, 2 (content 5), 3; no adjacent nested wrapper. -/
def rtCreateDoc : Doc :=
  docOfEntries
    [(0, ⟨.list "ul", none, [1, 2, 3]⟩),
     (1, ⟨.item, some 0, []⟩),
     (2, ⟨.item, some 0, [5]⟩),
     (5, ⟨.content, some 2, []⟩),
     (3, ⟨.item, some 0, []⟩)]
    6

/-- Concrete document for the previous-wrapper round trip: outer List 0
holds wrapper 1 (inner List 3 with item 4) and the target item 2. -/
def rtPrevDoc : Doc :=
  docOfEntries
    [(0, ⟨.list "ul", none, [1, 2]⟩),
     (1, ⟨.item, some 0, [3]⟩),
     (3, ⟨.list "ul", some 1, [4]⟩),
     (4, ⟨.item, some 3, []⟩),
     (2, ⟨.item, some 0, []⟩)]
    5

/-- Concrete document for the next-wrapper round trip: outer List 0 holds
the target item 1 and wrapper 2 (inner List 3 with item 4). -/
def rtNextDoc : Doc :=
  docOfEntries
    [(0, ⟨.list "ul", none, [1, 2]⟩),
     (1, ⟨.item, some 0, []⟩),
     (2, ⟨.item, some 0, [3]⟩),
     (3, ⟨.list "ul", some 2, [4]⟩),
     (4, ⟨.item, some 3, []⟩)]
    5

/-- Concrete document for the both-wrapper round trip: outer List 0 holds
wrapper 1 (inner 4 with item 6), target 2, wrapper 3 (inner 5 with item 7). -/
def rtBothDoc : Doc :=
  docOfEntries
    [(0, ⟨.list "ul", none, [1, 2, 3]⟩),
     (1, ⟨.item, some 0, [4]⟩),
     (4, ⟨.list "ul", some 1, [6]⟩),
     (6, ⟨.item, some 4, []⟩),
     (2, ⟨.item, some 0, []⟩),
     (3, ⟨.item, some 0, [5]⟩),
     (5, ⟨.list "ul", some 3, [7]⟩),
     (7, ⟨.item, some 5, []⟩)]
    8

theorem c4_round_trip_amended_witness :
    (handleOutdent (handleIndent rtCreateDoc [2]) [2]).nodes 0 =
      some ⟨.list "ul", none, [1, 2, 3]⟩ ∧
    (handleOutdent (handleIndent rtPrevDoc [2]) [2]).nodes 0 =
      some ⟨.list "ul", none, [1, 2]⟩ ∧
    (handleOutdent (handleIndent rtNextDoc [1]) [1]).nodes 0 =
      some ⟨.list "ul", none, [1, 2]⟩ ∧
    (handleOutdent (handleIndent rtBothDoc [2]) [2]).nodes 0 =
      some ⟨.list "ul", none, [8, 2, 10]⟩ := by
  refine ⟨?_, ?_, ?_, ?_⟩
  · exact c4_round_trip_amended.1 rtCreateDoc 2 0 "ul" none [5] [1] [3]
      (lookupEntry_keyBound (by decide)) rfl rfl
      (by
        intro s hs
        simp only [List.mem_singleton] at hs
        subst hs
        exact ⟨_, rfl, rfl⟩)
      (by
        intro s hs
        simp only [List.mem_singleton] at hs
        subst hs
        exact ⟨_, rfl, rfl⟩)
      (by decide) (by decide) (by decide) (by decide) (by decide) (by decide)
      (by decide) (by decide) (by decide) (by decide) (by decide) (by decide)
      0 ⟨.list "ul", none, [1, 2, 3]⟩ rfl
  · exact c4_round_trip_amended.2.1 rtPrevDoc 2 0 1 3 "ul" "ul" none [] [] [4] [] []
      rfl rfl rfl rfl (by decide) (by decide) (by decide) (by decide) (by decide)
      (by decide) (by decide) (by decide) (by decide) (by decide) (by decide)
      (by decide) (by decide) (by decide) (by decide)
      0 ⟨.list "ul", none, [1, 2]⟩ rfl
  · exact c4_round_trip_amended.2.2.1 rtNextDoc 1 0 2 3 4 "ul" "ul" none
      ⟨.item, some 3, []⟩ [] [] [] [] []
      rfl rfl rfl rfl rfl rfl (by decide) (by decide) (by decide) (by decide)
      (by decide) (by decide) (by decide) (by decide) (by decide) (by decide)
      (by decide) (by decide) (by decide) (by decide) (by decide)
      0 ⟨.list "ul", none, [1, 2]⟩ rfl
  · exact (c4_round_trip_amended.2.2.2 rtBothDoc 2 0 1 4 3 5 "ul" "ul" "ul" none
      [] [] [6] [7] [] []
      (lookupEntry_keyBound (by decide)) rfl rfl rfl rfl rfl rfl (by decide)
      (by
        intro s hs
        simp only [List.mem_singleton] at hs
        subst hs
        exact ⟨_, rfl, rfl⟩)
      (by
        intro s hs
        simp only [List.mem_singleton] at hs
        subst hs
        exact ⟨_, rfl, rfl⟩)
      (by decide) (by decide) (by decide) (by decide) (by decide)
      (by decide) (by decide) (by decide)
      (by decide) (by decide) (by decide) (by decide) (by decide)
      (by decide) (by decide) (by decide) (by decide)
      (by decide) (by decide) (by decide)
      (by decide) (by decide) (by decide)
      (by decide) (by decide) (by decide) (by decide) (by decide) (by decide)
      (by decide) (by decide) (by decide) (by decide) (by decide) (by decide)
      (by decide) (by decide) (by decide) (by decide) (by decide) (by decide)
      (by decide)).1

